import Mathlib

/-!
# Southwest China wind-turbine prediction script

A verification development for `gee_scripts/southwest_china_prediction.js`.

The script is a straight-line composition of Earth Engine client calls.  The
embedding has two layers.

* Namespace `ee` holds the operations of the hosted platform that the script
  calls: images as per-pixel partial functions, collections as lists, filters,
  reducers, sampling, the confusion matrix.  Rational numbers stand for the
  pixel and property values.  What the script leaves to the platform and to the
  data (which pixels a geometry covers, the pseudo-random generator behind
  `randomColumn`, the random-forest learner) is a field of `ee.Platform`.
* The top-level definitions `region_bbox`, `sentinel2`, `composite`, ... are
  the script's own variables, one definition per `var`, in source order.
-/

set_option autoImplicit false

namespace ee

/-! ## Geometry, pixels, dates -/

/-- A location on the map, longitude and latitude in degrees. -/
structure Pixel where
  lon : ℚ
  lat : ℚ
  deriving DecidableEq

/-- The geometries the script builds or reads. -/
inductive Geometry where
  | Rectangle (coords : List ℚ)
  | Point (lon lat : ℚ)
  | Polygon (ring : List (ℚ × ℚ))
  deriving DecidableEq

/-- The part of the platform that the script does not fix: rasterisation of
geometries, the generator of `randomColumn`, and the random-forest learner. -/
structure Platform where
  /-- Whether a geometry covers a pixel (used by `clip`). -/
  covers : Geometry → Pixel → Bool
  /-- Whether an image footprint intersects a geometry (used by `filterBounds`). -/
  intersects : Geometry → Geometry → Bool
  /-- The pixels of a geometry at a given scale in metres (used by `sampleRegions`). -/
  pixels : Geometry → ℚ → List Pixel
  /-- The uniform generator of `randomColumn`: seed and row key give a number. -/
  random : Nat → String → ℚ
  /-- The random-forest learner: number of trees, seed and labelled vectors give
  the decision function of the trained classifier. -/
  smileRandomForest : Nat → Nat → List (List ℚ × Nat) → List ℚ → Nat

/-- Days from 1970-01-01 to the given civil date (proleptic Gregorian). -/
def daysFromCivil (y m d : Int) : Int :=
  let y1 := if m ≤ 2 then y - 1 else y
  let era := y1 / 400
  let yoe := y1 - era * 400
  let mp := if m > 2 then m - 3 else m + 9
  let doy := (153 * mp + 2) / 5 + d - 1
  let doe := yoe * 365 + yoe / 4 - yoe / 100 + doy
  era * 146097 + doe - 719468

/-- The instant `ee.Date('yyyy-mm-dd')`: milliseconds since the epoch, at 00:00 UTC. -/
def Date (y m d : Int) : Int :=
  daysFromCivil y m d * 86400000

/-! ## Properties and filters -/

/-- Numeric properties of an element (image or feature), first binding wins. -/
abbrev Properties := List (String × ℚ)

/-- Look a property up. -/
def Properties.get (ps : Properties) (name : String) : Option ℚ :=
  (ps.find? (fun kv => kv.1 == name)).map Prod.snd

/-- Set a property, replacing any earlier binding. -/
def Properties.set (ps : Properties) (name : String) (v : ℚ) : Properties :=
  (name, v) :: ps.filter (fun kv => !(kv.1 == name))

/-- The filters `ee.Filter.lt`, `ee.Filter.gte` and `ee.Filter.eq` on a property. -/
inductive Filter where
  | lt (name : String) (value : ℚ)
  | gte (name : String) (value : ℚ)
  | eq (name : String) (value : ℚ)

/-- A filter holds of an element when the property is present and compares as asked. -/
def Filter.test (f : Filter) (ps : Properties) : Bool :=
  match f with
  | .lt name value => match ps.get name with
    | some v => decide (v < value)
    | none => false
  | .gte name value => match ps.get name with
    | some v => decide (v ≥ value)
    | none => false
  | .eq name value => match ps.get name with
    | some v => decide (v = value)
    | none => false

/-! ## Images -/

/-- An image: its band names, and for each band a partial function from pixels
to values, `none` where the pixel is masked. -/
structure Image where
  bandNames : List String
  value : String → Pixel → Option ℚ
  properties : Properties
  time_start : Option Int
  footprint : Option Geometry

namespace Image

/-- The operation `image.select(names)`: the listed bands, in the listed order;
an error when a name is not a band of the image. -/
def select (img : Image) (names : List String) : Except String Image :=
  if names.all (fun n => img.bandNames.contains n) then
    .ok { img with
      bandNames := names
      value := fun b p => if names.contains b then img.value b p else none }
  else
    .error "Image.select: band not found"

/-- The operation `image.lt(c)`: 1 where the value is below `c`, 0 elsewhere,
masked where the input is masked. -/
def lt (img : Image) (c : ℚ) : Image :=
  { img with
    value := fun b p => (img.value b p).map (fun v => if v < c then 1 else 0) }

/-- The band of `mask` that `updateMask` applies to band `b` of `img`: the only
band of a single-band mask, else the band at the same position. -/
def maskBand (img mask : Image) (b : String) : Option String :=
  match mask.bandNames with
  | [m] => some m
  | ms => ms.get? (img.bandNames.indexOf b)

/-- The operation `image.updateMask(mask)`: a pixel keeps its value where it is
unmasked and the mask is unmasked and non-zero there. -/
def updateMask (img mask : Image) : Image :=
  { img with
    value := fun b p =>
      match img.value b p, (maskBand img mask b).bind (fun m => mask.value m p) with
      | some v, some k => if k ≠ 0 then some v else none
      | _, _ => none }

/-- The operation `image.clip(geometry)`: pixels not covered by the geometry are masked. -/
def clip (P : Platform) (img : Image) (g : Geometry) : Image :=
  { img with
    value := fun b p => if P.covers g p then img.value b p else none
    footprint := some g }

/-- The operation `image.normalizedDifference([a, b])`: one band named `nd` with
value `(a - b) / (a + b)`; masked where an input is masked or negative, and
where the sum is zero; image properties are not retained.  An error when `a`
or `b` is not a band of the image. -/
def normalizedDifference (img : Image) (names : List String) : Except String Image :=
  match names with
  | [a, b] =>
    if img.bandNames.contains a && img.bandNames.contains b then
      .ok { bandNames := ["nd"]
            value := fun n p =>
              if n = "nd" then
                match img.value a p, img.value b p with
                | some x, some y =>
                  if x < 0 ∨ y < 0 ∨ x + y = 0 then none else some ((x - y) / (x + y))
                | _, _ => none
              else none
            properties := []
            time_start := none
            footprint := img.footprint }
    else .error "Image.normalizedDifference: no band of that name"
  | _ => .error "Image.normalizedDifference: two band names expected"

/-- The operation `image.rename(names)`: the bands in the same order under new
names; an error when the number of names differs from the number of bands. -/
def rename (img : Image) (names : List String) : Except String Image :=
  if names.length = img.bandNames.length then
    .ok { img with
      bandNames := names
      value := fun n p =>
        match img.bandNames.get? (names.indexOf n) with
        | some old => img.value old p
        | none => none }
  else .error "Image.rename: wrong number of names"

/-- The operation `ee.Image.cat(images)`: the bands of all images, in order.
(The platform renames a band whose name is already taken; the images that the
script concatenates never share a band name.) -/
def cat (imgs : List Image) : Image :=
  { bandNames := imgs.flatMap (fun i => i.bandNames)
    value := fun b p =>
      match imgs.find? (fun i => i.bandNames.contains b) with
      | some i => i.value b p
      | none => none
    properties := (imgs.head?.map (fun i => i.properties)).getD []
    time_start := imgs.head?.bind (fun i => i.time_start)
    footprint := imgs.head?.bind (fun i => i.footprint) }

end Image

/-! ## Image collections -/

/-- An image collection is the list of its images. -/
abbrev ImageCollection := List Image

/-- Insert a value into a sorted list. -/
def insertSorted (x : ℚ) : List ℚ → List ℚ
  | [] => [x]
  | y :: ys => if x ≤ y then x :: y :: ys else y :: insertSorted x ys

/-- Sort a list of values in increasing order. -/
def sortValues : List ℚ → List ℚ
  | [] => []
  | x :: xs => insertSorted x (sortValues xs)

namespace Reducer

/-- The reducer `ee.Reducer.median()`: the middle value of the sorted inputs, the
mean of the two middle values when their number is even, nothing for no input. -/
def median (xs : List ℚ) : Option ℚ :=
  let s := sortValues xs
  let n := s.length
  if n = 0 then none
  else if n % 2 = 1 then s.get? (n / 2)
  else match s.get? (n / 2 - 1), s.get? (n / 2) with
    | some a, some b => some ((a + b) / 2)
    | _, _ => none

end Reducer

namespace ImageCollection

/-- The operation `collection.filterDate(start, end)`: images whose start time is
at or after `start` and before `end`. -/
def filterDate (c : ImageCollection) (start stop : Int) : ImageCollection :=
  c.filter (fun i => match i.time_start with
    | some t => decide (start ≤ t) && decide (t < stop)
    | none => false)

/-- The operation `collection.filterBounds(geometry)`: images whose footprint
intersects the geometry. -/
def filterBounds (P : Platform) (c : ImageCollection) (g : Geometry) : ImageCollection :=
  c.filter (fun i => match i.footprint with
    | some f => P.intersects f g
    | none => true)

/-- The operation `collection.filter(f)` on the image properties. -/
def filter (c : ImageCollection) (f : Filter) : ImageCollection :=
  List.filter (fun i => f.test i.properties) c

/-- The operation `collection.map(f)`: the images under `f`, an error if `f` fails on one. -/
def map (f : Image → Except String Image) : ImageCollection → Except String ImageCollection
  | [] => .ok []
  | i :: is => do
    let j ← f i
    let js ← map f is
    pure (j :: js)

/-- The operation `collection.median()`: per band and pixel the median of the
unmasked values; the bands are those of the images, and an empty collection
gives an image without bands. -/
def median (c : ImageCollection) : Image :=
  let names := (c.head?.map (fun i => i.bandNames)).getD []
  { bandNames := names
    value := fun b p =>
      if names.contains b then Reducer.median (c.filterMap (fun i => i.value b p)) else none
    properties := []
    time_start := none
    footprint := none }

end ImageCollection

/-- A product of the Sentinel-2 surface-reflectance collection `COPERNICUS/S2_SR`:
the bands that the script reads, the acquisition time, the footprint and the
scene cloud percentage. -/
structure S2Product where
  B2 : Pixel → Option ℚ
  B3 : Pixel → Option ℚ
  B4 : Pixel → Option ℚ
  B8 : Pixel → Option ℚ
  B11 : Pixel → Option ℚ
  B12 : Pixel → Option ℚ
  MSK_CLDPRB : Pixel → Option ℚ
  time_start : Int
  footprint : Geometry
  CLOUDY_PIXEL_PERCENTAGE : ℚ

/-- The band of a product under its name. -/
def S2Product.band (s : S2Product) (b : String) : Pixel → Option ℚ :=
  if b = "B2" then s.B2
  else if b = "B3" then s.B3
  else if b = "B4" then s.B4
  else if b = "B8" then s.B8
  else if b = "B11" then s.B11
  else if b = "B12" then s.B12
  else if b = "MSK_CLDPRB" then s.MSK_CLDPRB
  else fun _ => none

/-- A product as an image. -/
def S2Product.toImage (s : S2Product) : Image :=
  { bandNames := ["B2", "B3", "B4", "B8", "B11", "B12", "MSK_CLDPRB"]
    value := fun b p => s.band b p
    properties := [("CLOUDY_PIXEL_PERCENTAGE", s.CLOUDY_PIXEL_PERCENTAGE)]
    time_start := some s.time_start
    footprint := some s.footprint }

/-! ## Features and feature collections -/

/-- A feature: an element with an index, an optional geometry and properties. -/
structure Feature where
  index : String
  geometry : Option Geometry
  properties : Properties

/-- A feature collection is the list of its features. -/
abbrev FeatureCollection := List Feature

/-- A labelled sample of the asset that the script loads: a geometry and the
class of the sample, a natural number stored under the property `class`. -/
structure Sample where
  index : String
  geometry : Geometry
  classLabel : Nat

/-- A sample as a feature. -/
def Sample.toFeature (s : Sample) : Feature :=
  { index := s.index
    geometry := some s.geometry
    properties := [("class", (s.classLabel : ℚ))] }

/-- All values of a list when none is missing. -/
def collect : List (Option ℚ) → Option (List ℚ)
  | [] => some []
  | none :: _ => none
  | some v :: rest => (collect rest).map (fun vs => v :: vs)

/-- A class label read from a property value: non-negative whole numbers only. -/
def natLabel (q : ℚ) : Option Nat :=
  if q.den = 1 ∧ 0 ≤ q.num then some q.num.toNat else none

/-- The properties listed in `names` copied from `src` over `dst`. -/
def copyProperties (src : Properties) (names : List String) (dst : Properties) : Properties :=
  names.foldl (fun acc name => match src.get name with
    | some v => acc.set name v
    | none => acc) dst

/-- The operation `image.sampleRegions(collection, properties, scale, tileScale)`:
one row per pixel of each feature geometry at the given scale, carrying one
property per band and the listed properties of the feature; a pixel where some
band is masked gives no row.  The tile scale only steers the evaluation. -/
def Image.sampleRegions (P : Platform) (img : Image) (collection : FeatureCollection)
    (properties : List String) (scale : ℚ) (_tileScale : ℚ) : FeatureCollection :=
  collection.flatMap (fun f =>
    match f.geometry with
    | none => []
    | some g =>
      (P.pixels g scale).enum.filterMap (fun kp =>
        match collect (img.bandNames.map (fun b => img.value b kp.2)) with
        | none => none
        | some vs => some
          { index := f.index ++ "_" ++ toString kp.1
            geometry := none
            properties := copyProperties f.properties properties (img.bandNames.zip vs) }))

namespace FeatureCollection

/-- The operation `collection.randomColumn(columnName, seed)`: every row gets
the column, its value drawn by the platform generator from the seed and the
row index. -/
def randomColumnSeeded (P : Platform) (c : FeatureCollection) (columnName : String)
    (seed : Nat) : FeatureCollection :=
  c.map (fun f => { f with properties := f.properties.set columnName (P.random seed f.index) })

/-- The operation `collection.randomColumn(columnName)`, with the default seed 0. -/
def randomColumn (P : Platform) (c : FeatureCollection) (columnName : String) :
    FeatureCollection :=
  randomColumnSeeded P c columnName 0

/-- The operation `collection.filter(f)` on the feature properties. -/
def filter (c : FeatureCollection) (f : Filter) : FeatureCollection :=
  List.filter (fun r => f.test r.properties) c

end FeatureCollection

/-! ## Classifiers -/

/-- A trained classifier: the properties it reads, the property it was trained
to predict and its decision function. -/
structure Classifier where
  inputProperties : List String
  classProperty : String
  decide : List ℚ → Nat

/-- An untrained random forest: its number of trees and its seed. -/
structure RandomForest where
  numberOfTrees : Nat
  seed : Nat

/-- The constructor `ee.Classifier.smileRandomForest(numberOfTrees)`, with the default seed 0. -/
def Classifier.smileRandomForest (numberOfTrees : Nat) : RandomForest :=
  { numberOfTrees := numberOfTrees, seed := 0 }

/-- The labelled vectors that a table gives the learner: per row the input
properties in order and the class; a row that lacks one of them gives none. -/
def trainingData (features : FeatureCollection) (classProperty : String)
    (inputProperties : List String) : List (List ℚ × Nat) :=
  features.filterMap (fun f =>
    match collect (inputProperties.map f.properties.get),
      (f.properties.get classProperty).bind natLabel with
    | some v, some c => some (v, c)
    | _, _ => none)

/-- The operation `classifier.train(features, classProperty, inputProperties)`. -/
def RandomForest.train (P : Platform) (rf : RandomForest) (features : FeatureCollection)
    (classProperty : String) (inputProperties : List String) : Classifier :=
  { inputProperties := inputProperties
    classProperty := classProperty
    decide := P.smileRandomForest rf.numberOfTrees rf.seed
      (trainingData features classProperty inputProperties) }

/-- The operation `collection.classify(classifier)`: every row gets the
property `classification`, the decision on its input properties. -/
def FeatureCollection.classify (c : FeatureCollection) (cls : Classifier) : FeatureCollection :=
  c.map (fun f =>
    match collect (cls.inputProperties.map f.properties.get) with
    | some v => { f with properties := f.properties.set "classification" (cls.decide v) }
    | none => f)

/-- The operation `image.classify(classifier)`: one band `classification`, the
decision on the input bands, masked where one of them is masked; an error when
an input property is not a band of the image. -/
def Image.classify (img : Image) (cls : Classifier) : Except String Image :=
  if cls.inputProperties.all (fun n => img.bandNames.contains n) then
    .ok { bandNames := ["classification"]
          value := fun n p =>
            if n = "classification" then
              (collect (cls.inputProperties.map (fun b => img.value b p))).map
                (fun v => ((cls.decide v : Nat) : ℚ))
            else none
          properties := img.properties
          time_start := img.time_start
          footprint := img.footprint }
  else .error "Image.classify: input band not found"

/-! ## Confusion matrix -/

/-- A confusion matrix: `array[i][j]` counts the rows of actual class `i` and
predicted class `j`. -/
structure ConfusionMatrix where
  array : List (List Nat)

/-- The pairs of actual and predicted class of the rows that carry both. -/
def labelPairs (c : FeatureCollection) (actual predicted : String) : List (Nat × Nat) :=
  c.filterMap (fun f =>
    match (f.properties.get actual).bind natLabel, (f.properties.get predicted).bind natLabel with
    | some a, some b => some (a, b)
    | _, _ => none)

/-- The operation `collection.errorMatrix(actual, predicted)`: a square matrix
over the classes 0 to the largest class seen, rows the actual and columns the
predicted class. -/
def FeatureCollection.errorMatrix (c : FeatureCollection) (actual predicted : String) :
    ConfusionMatrix :=
  let pairs := labelPairs c actual predicted
  let n := pairs.foldl (fun m ab => max m (max ab.1 ab.2 + 1)) 0
  { array := (List.range n).map (fun i => (List.range n).map (fun j => pairs.count (i, j))) }

/-- An entry of the matrix, 0 outside it. -/
def ConfusionMatrix.entry (m : ConfusionMatrix) (i j : Nat) : Nat :=
  ((m.array.get? i).bind (fun row => row.get? j)).getD 0

/-- The operation `matrix.accuracy()`: the sum of the diagonal over the sum of all
entries; undefined for a matrix without counts. -/
def ConfusionMatrix.accuracy (m : ConfusionMatrix) : Option ℚ :=
  let total := (m.array.map List.sum).sum
  let correct := ((List.range m.array.length).map (fun i => m.entry i i)).sum
  if total = 0 then none else some ((correct : ℚ) / (total : ℚ))

end ee

open ee

/-! ## The script -/

/-- Line 6: `var region_bbox = ee.Geometry.Rectangle([95, 25, 110, 35])`. -/
def region_bbox : Geometry := Geometry.Rectangle [95, 25, 110, 35]

/-- Lines 16-20: the function mapped over the collection. -/
def cloudMask (image : Image) : Except String Image := do
  let cloudProb ← image.select ["MSK_CLDPRB"]
  let mask := cloudProb.lt 20
  (image.updateMask mask).select ["B2", "B3", "B4", "B8", "B11", "B12"]

/-- Lines 12-20: `var sentinel2`, the filtered and cloud-masked collection; `s2sr`
is the content of the asset `COPERNICUS/S2_SR`. -/
def sentinel2 (P : Platform) (s2sr : List S2Product) : Except String ImageCollection :=
  ImageCollection.map cloudMask
    (ImageCollection.filter
      (ImageCollection.filterBounds P
        (ImageCollection.filterDate (s2sr.map S2Product.toImage) (Date 2024 1 1) (Date 2024 9 30))
        region_bbox)
      (Filter.lt "CLOUDY_PIXEL_PERCENTAGE" 20))

/-- Line 23: `var composite = sentinel2.median().clip(region_bbox)`. -/
def composite (P : Platform) (s2sr : List S2Product) : Except String Image := do
  let c ← sentinel2 P s2sr
  pure (Image.clip P c.median region_bbox)

/-- Line 9: `var samples`, the labelled samples of the asset. -/
def samples (samplesAsset : List Sample) : FeatureCollection :=
  samplesAsset.map Sample.toFeature

/-- Line 26: `var ndvi = composite.normalizedDifference(['B8', 'B4']).rename('NDVI')`. -/
def ndvi (P : Platform) (s2sr : List S2Product) : Except String Image := do
  let c ← composite P s2sr
  let nd ← c.normalizedDifference ["B8", "B4"]
  nd.rename ["NDVI"]

/-- Line 27: `var ndwi = composite.normalizedDifference(['B3', 'B8']).rename('NDWI')`. -/
def ndwi (P : Platform) (s2sr : List S2Product) : Except String Image := do
  let c ← composite P s2sr
  let nd ← c.normalizedDifference ["B3", "B8"]
  nd.rename ["NDWI"]

/-- Line 28: `var ndbi = composite.normalizedDifference(['B11', 'B8']).rename('NDBI')`. -/
def ndbi (P : Platform) (s2sr : List S2Product) : Except String Image := do
  let c ← composite P s2sr
  let nd ← c.normalizedDifference ["B11", "B8"]
  nd.rename ["NDBI"]

/-- Line 31: `var allFeatures = ee.Image.cat([composite, ndvi, ndwi, ndbi])`. -/
def allFeatures (P : Platform) (s2sr : List S2Product) : Except String Image := do
  let c ← composite P s2sr
  let i1 ← ndvi P s2sr
  let i2 ← ndwi P s2sr
  let i3 ← ndbi P s2sr
  pure (Image.cat [c, i1, i2, i3])

/-- Lines 34-39: `var training = allFeatures.sampleRegions(...)`. -/
def training (P : Platform) (samplesAsset : List Sample) (s2sr : List S2Product) :
    Except String FeatureCollection := do
  let af ← allFeatures P s2sr
  pure (af.sampleRegions P (samples samplesAsset) ["class"] 20 4)

/-- Line 42: `var withRandom = training.randomColumn('random')`. -/
def withRandom (P : Platform) (samplesAsset : List Sample) (s2sr : List S2Product) :
    Except String FeatureCollection := do
  let t ← training P samplesAsset s2sr
  pure (FeatureCollection.randomColumn P t "random")

/-- Line 43: `var trainingSet = withRandom.filter(ee.Filter.lt('random', 0.7))`. -/
def trainingSet (P : Platform) (samplesAsset : List Sample) (s2sr : List S2Product) :
    Except String FeatureCollection := do
  let w ← withRandom P samplesAsset s2sr
  pure (FeatureCollection.filter w (Filter.lt "random" 0.7))

/-- Line 44: `var validationSet = withRandom.filter(ee.Filter.gte('random', 0.7))`. -/
def validationSet (P : Platform) (samplesAsset : List Sample) (s2sr : List S2Product) :
    Except String FeatureCollection := do
  let w ← withRandom P samplesAsset s2sr
  pure (FeatureCollection.filter w (Filter.gte "random" 0.7))

/-- Lines 47-51: `var classifier = ee.Classifier.smileRandomForest(50).train(...)`. -/
def classifier (P : Platform) (samplesAsset : List Sample) (s2sr : List S2Product) :
    Except String Classifier := do
  let ts ← trainingSet P samplesAsset s2sr
  let af ← allFeatures P s2sr
  pure ((Classifier.smileRandomForest 50).train P ts "class" af.bandNames)

/-- Line 54: `var validation = validationSet.classify(classifier)`. -/
def validation (P : Platform) (samplesAsset : List Sample) (s2sr : List S2Product) :
    Except String FeatureCollection := do
  let vs ← validationSet P samplesAsset s2sr
  let cls ← classifier P samplesAsset s2sr
  pure (vs.classify cls)

/-- Line 55: `var confusionMatrix = validation.errorMatrix('class', 'classification')`. -/
def confusionMatrix (P : Platform) (samplesAsset : List Sample) (s2sr : List S2Product) :
    Except String ConfusionMatrix := do
  let v ← validation P samplesAsset s2sr
  pure (v.errorMatrix "class" "classification")

/-- Line 57: the value printed as overall accuracy, `confusionMatrix.accuracy()`. -/
def overallAccuracy (P : Platform) (samplesAsset : List Sample) (s2sr : List S2Product) :
    Except String (Option ℚ) := do
  let m ← confusionMatrix P samplesAsset s2sr
  pure m.accuracy

/-- Line 61: `var classified = allFeatures.classify(classifier)`. -/
def classified (P : Platform) (samplesAsset : List Sample) (s2sr : List S2Product) :
    Except String Image := do
  let af ← allFeatures P s2sr
  let cls ← classifier P samplesAsset s2sr
  af.classify cls

/-- Line 65: the layer of positive samples, `samples.filter(ee.Filter.eq('class', 1))`. -/
def positiveSamples (samplesAsset : List Sample) : FeatureCollection :=
  FeatureCollection.filter (samples samplesAsset) (Filter.eq "class" 1)

/-! ## An example run -/

/-- An example platform: planar rectangles, point geometries, a generator that
looks at the length of the row key, a learner that returns the first label. -/
def examplePlatform : Platform :=
  { covers := fun g p => match g with
      | .Rectangle [a, b, c, d] => decide (a ≤ p.lon ∧ p.lon ≤ c ∧ b ≤ p.lat ∧ p.lat ≤ d)
      | _ => false
    intersects := fun _ _ => true
    pixels := fun g _ => match g with
      | .Point x y => [⟨x, y⟩]
      | _ => []
    random := fun _ k => if k.length % 2 = 1 then 1 / 4 else 9 / 10
    smileRandomForest := fun _ _ d _ => match d with
      | (_, c) :: _ => c
      | [] => 0 }

/-- An example product with constant bands. -/
def exampleProduct (v cloudProb : ℚ) (t : Int) (cloudy : ℚ) : S2Product :=
  { B2 := fun _ => some v
    B3 := fun _ => some (v + 1)
    B4 := fun _ => some (v + 2)
    B8 := fun _ => some (v + 3)
    B11 := fun _ => some (v + 4)
    B12 := fun _ => some (v + 5)
    MSK_CLDPRB := fun _ => some cloudProb
    time_start := t
    footprint := .Rectangle [90, 20, 100, 30]
    CLOUDY_PIXEL_PERCENTAGE := cloudy }

/-- An example asset: three products pass all filters, one is cloudy at every
pixel, one starts on 2024-09-30, one has a scene cloud percentage of 20. -/
def exampleProducts : List S2Product :=
  [exampleProduct 100 5 (Date 2024 3 1) 10, exampleProduct 200 25 (Date 2024 3 2) 10,
   exampleProduct 300 5 (Date 2024 9 30) 10, exampleProduct 400 5 (Date 2024 4 1) 20,
   exampleProduct 500 0 (Date 2024 1 1) 19, exampleProduct 900 0 (Date 2024 1 1) 19]

/-- Example samples: three inside the region, one outside. -/
def exampleSamples : List Sample :=
  [⟨"a", .Point 100 30, 1⟩, ⟨"bb", .Point 101 30, 0⟩, ⟨"c", .Point 0 0, 1⟩,
   ⟨"dddd", .Point 102 30, 1⟩]

/-! ## Derived notions used in the proofs -/

/-- The value that `normalizedDifference([a, b])` gives at a pixel of `c` -/
def ndValue (c : Image) (a b : String) (p : Pixel) : Option ℚ :=
  match c.value a p, c.value b p with
  | some x, some y => if x < 0 ∨ y < 0 ∨ x + y = 0 then none else some ((x - y) / (x + y))
  | _, _ => none

/-! ## Lemmas on the platform operations -/

theorem cloudMask_toImage (s : S2Product) :
    ∃ img, cloudMask s.toImage = .ok img ∧ img.bandNames = ["B2", "B3", "B4", "B8", "B11", "B12"] ∧
      img.time_start = some s.time_start ∧ img.footprint = some s.footprint ∧
      img.properties = [("CLOUDY_PIXEL_PERCENTAGE", s.CLOUDY_PIXEL_PERCENTAGE)] ∧
      ∀ b p, img.value b p =
        if b ∈ ["B2", "B3", "B4", "B8", "B11", "B12"] then
          match s.band b p, s.MSK_CLDPRB p with
          | some v, some k => if k < 20 then some v else none
          | _, _ => none
        else none := by
  refine ⟨_, rfl, rfl, rfl, rfl, rfl, ?_⟩
  intro b p
  show (if List.contains ["B2", "B3", "B4", "B8", "B11", "B12"] b then _ else none) = _
  by_cases hb : b ∈ ["B2", "B3", "B4", "B8", "B11", "B12"]
  · have hc : List.contains ["B2", "B3", "B4", "B8", "B11", "B12"] b = true := by
      simpa using hb
    rw [if_pos hc, if_pos hb]
    show (match s.band b p, (some "MSK_CLDPRB").bind (fun m => ((if List.contains ["MSK_CLDPRB"] m then s.band m p else none)).map (fun v => if v < 20 then (1:ℚ) else 0)) with
      | some v, some k => if k ≠ 0 then some v else none
      | _, _ => none) = _
    have hm : s.band "MSK_CLDPRB" p = s.MSK_CLDPRB p := rfl
    simp only [Option.some_bind, List.contains_cons, List.contains_nil, beq_self_eq_true, Bool.or_false, if_true, hm]
    cases s.band b p <;> cases s.MSK_CLDPRB p <;> simp
  · have hc : ¬ List.contains ["B2", "B3", "B4", "B8", "B11", "B12"] b = true := by
      simpa using hb
    rw [if_neg hc, if_neg hb]


theorem map_forall2 (f : Image → Except String Image) (L : ImageCollection)
    (h : ∀ i ∈ L, ∃ j, f i = .ok j) :
    ∃ coll, ImageCollection.map f L = .ok coll ∧ List.Forall₂ (fun i j => f i = .ok j) L coll := by
  induction L with
  | nil => exact ⟨[], rfl, List.Forall₂.nil⟩
  | cons i is ih =>
    obtain ⟨j, hj⟩ := h i (List.mem_cons_self _ _)
    obtain ⟨js, hjs, hall⟩ := ih (fun x hx => h x (List.mem_cons_of_mem _ hx))
    refine ⟨j :: js, ?_, List.Forall₂.cons hj hall⟩
    show (do let j ← f i; let js ← ImageCollection.map f is; pure (j :: js)) = _
    rw [hj, hjs]
    rfl

theorem sentinel2_spec (P : Platform) (s2sr : List S2Product) :
    ∃ coll, sentinel2 P s2sr = .ok coll ∧
      List.Forall₂ (fun i j => cloudMask i = .ok j)
        (ImageCollection.filter
          (ImageCollection.filterBounds P
            (ImageCollection.filterDate (s2sr.map S2Product.toImage) (Date 2024 1 1) (Date 2024 9 30))
            region_bbox)
          (Filter.lt "CLOUDY_PIXEL_PERCENTAGE" 20)) coll := by
  apply map_forall2
  intro i hi
  simp only [ImageCollection.filter, ImageCollection.filterBounds, ImageCollection.filterDate,
    List.mem_filter, List.mem_map] at hi
  obtain ⟨⟨⟨⟨s, _, rfl⟩, _⟩, _⟩, _⟩ := hi
  obtain ⟨img, h, _⟩ := cloudMask_toImage s
  exact ⟨img, h⟩

theorem selected_spec (P : Platform) (s2sr : List S2Product) (i : Image)
    (hi : i ∈ ImageCollection.filter
          (ImageCollection.filterBounds P
            (ImageCollection.filterDate (s2sr.map S2Product.toImage) (Date 2024 1 1) (Date 2024 9 30))
            region_bbox)
          (Filter.lt "CLOUDY_PIXEL_PERCENTAGE" 20)) :
    ∃ s ∈ s2sr, i = s.toImage ∧ Date 2024 1 1 ≤ s.time_start ∧ s.time_start < Date 2024 9 30 ∧
      P.intersects s.footprint region_bbox = true ∧ s.CLOUDY_PIXEL_PERCENTAGE < 20 := by
  simp only [ImageCollection.filter, ImageCollection.filterBounds, ImageCollection.filterDate,
    List.mem_filter, List.mem_map] at hi
  obtain ⟨⟨⟨⟨s, hs, rfl⟩, h1⟩, h2⟩, h3⟩ := hi
  refine ⟨s, hs, rfl, ?_, ?_, ?_, ?_⟩
  · simp [S2Product.toImage] at h1; exact h1.1
  · simp [S2Product.toImage] at h1; exact h1.2
  · simpa [S2Product.toImage] using h2
  · simpa [S2Product.toImage, Filter.test, Properties.get] using h3

theorem sortValues_eq (xs : List ℚ) : sortValues xs = xs.insertionSort (fun a b => a ≤ b) := by
  have hins : ∀ (x : ℚ) (l : List ℚ), insertSorted x l = l.orderedInsert (fun a b => a ≤ b) x := by
    intro x l
    induction l with
    | nil => rfl
    | cons y ys ih => simp [insertSorted, List.orderedInsert, ih]
  induction xs with
  | nil => rfl
  | cons x xs ih => simp [sortValues, List.insertionSort, ih, hins]

theorem sortValues_perm (xs : List ℚ) : (sortValues xs).Perm xs := by
  rw [sortValues_eq]
  exact List.perm_insertionSort _ xs

theorem sortValues_sorted (xs : List ℚ) : (sortValues xs).Pairwise (fun a b => a ≤ b) := by
  rw [sortValues_eq]
  exact List.sorted_insertionSort _ xs

theorem sorted_getElem_le {s : List ℚ} (hs : s.Pairwise (fun a b => a ≤ b)) {i j : Nat}
    (hi : i < s.length) (hj : j < s.length) (hij : i ≤ j) : s[i] ≤ s[j] := by
  rcases Nat.lt_or_eq_of_le hij with h | h
  · exact List.pairwise_iff_getElem.mp hs i j _ hj h
  · subst h; exact le_refl _

theorem count_le_of_sorted {s : List ℚ} (hs : s.Pairwise (fun a b => a ≤ b)) {k : Nat}
    (hk : k < s.length) (m : ℚ) (hm : s[k] ≤ m) :
    k + 1 ≤ s.countP (fun v => decide (v ≤ m)) := by
  have hsplit := List.take_append_drop (k + 1) s
  have hall : (s.take (k + 1)).countP (fun v => decide (v ≤ m)) = (s.take (k + 1)).length := by
    rw [List.countP_eq_length]
    intro a ha
    obtain ⟨i, hi, rfl⟩ := List.mem_take_iff_getElem.mp ha
    have hik : i ≤ k := by
      have := lt_min_iff.mp hi
      omega
    exact decide_eq_true (le_trans (sorted_getElem_le hs (by omega) hk hik) hm)
  have hlen : (s.take (k + 1)).length = k + 1 := by
    rw [List.length_take]; omega
  calc k + 1 = (s.take (k + 1)).countP (fun v => decide (v ≤ m)) := by rw [hall, hlen]
    _ ≤ (s.take (k + 1)).countP (fun v => decide (v ≤ m))
          + (s.drop (k + 1)).countP (fun v => decide (v ≤ m)) := Nat.le_add_right _ _
    _ = s.countP (fun v => decide (v ≤ m)) := by rw [← List.countP_append, hsplit]

theorem count_ge_of_sorted {s : List ℚ} (hs : s.Pairwise (fun a b => a ≤ b)) {k : Nat}
    (hk : k < s.length) (m : ℚ) (hm : m ≤ s[k]) :
    s.length - k ≤ s.countP (fun v => decide (m ≤ v)) := by
  have hsplit := List.take_append_drop k s
  have hall : (s.drop k).countP (fun v => decide (m ≤ v)) = (s.drop k).length := by
    rw [List.countP_eq_length]
    intro a ha
    obtain ⟨i, hi, rfl⟩ := List.mem_drop_iff_getElem.mp ha
    have hki : k + i < s.length := by omega
    exact decide_eq_true (le_trans hm (sorted_getElem_le hs hk hki (Nat.le_add_right k i)))
  calc s.length - k = (s.drop k).countP (fun v => decide (m ≤ v)) := by
        rw [hall, List.length_drop]
    _ ≤ (s.take k).countP (fun v => decide (m ≤ v))
          + (s.drop k).countP (fun v => decide (m ≤ v)) := Nat.le_add_left _ _
    _ = s.countP (fun v => decide (m ≤ v)) := by rw [← List.countP_append, hsplit]

/-- A value returned by the median reducer splits the inputs in halves: at
least half of them are at most the value, and at least half are at least it. -/
theorem median_splits (xs : List ℚ) (m : ℚ) (h : Reducer.median xs = some m) :
    xs.length ≤ 2 * xs.countP (fun v => decide (v ≤ m)) ∧
      xs.length ≤ 2 * xs.countP (fun v => decide (m ≤ v)) := by
  have hperm := sortValues_perm xs
  have hsort := sortValues_sorted xs
  rw [← hperm.countP_eq, ← hperm.countP_eq, ← hperm.length_eq]
  unfold Reducer.median at h
  simp only at h
  generalize sortValues xs = s at h hsort
  split_ifs at h with h0 h1
  · obtain ⟨hk, rfl⟩ := List.get?_eq_some.mp h
    have ha := count_le_of_sorted hsort hk _ (le_refl _)
    have hb := count_ge_of_sorted hsort hk _ (le_refl _)
    simp only [List.get_eq_getElem] at *
    constructor <;> omega
  · split at h
    · rename_i a b ha hb
      cases h
      obtain ⟨hka, rfl⟩ := List.get?_eq_some.mp ha
      obtain ⟨hkb, rfl⟩ := List.get?_eq_some.mp hb
      simp only [List.get_eq_getElem] at *
      have hab : s[s.length / 2 - 1] ≤ s[s.length / 2] :=
        sorted_getElem_le hsort hka hkb (Nat.sub_le _ _)
      have h1 := count_le_of_sorted hsort hka ((s[s.length / 2 - 1] + s[s.length / 2]) / 2)
        (by linarith)
      have h2 := count_ge_of_sorted hsort hkb ((s[s.length / 2 - 1] + s[s.length / 2]) / 2)
        (by linarith)
      constructor <;> omega
    · cases h

theorem median_eq_none_iff (xs : List ℚ) : Reducer.median xs = none ↔ xs = [] := by
  have hlen := (sortValues_perm xs).length_eq
  unfold Reducer.median
  simp only
  constructor
  · intro h
    split_ifs at h with h0 h1
    · rw [h0] at hlen
      exact List.length_eq_zero.mp hlen.symm
    · have hk : (sortValues xs).length / 2 < (sortValues xs).length := by omega
      rw [List.get?_eq_get hk] at h
      cases h
    · have hk : (sortValues xs).length / 2 < (sortValues xs).length := by omega
      have hk1 : (sortValues xs).length / 2 - 1 < (sortValues xs).length := by omega
      rw [List.get?_eq_get hk, List.get?_eq_get hk1] at h
      cases h
  · rintro rfl
    rfl

theorem forall2_mem_right {α β : Type} {R : α → β → Prop} {l₁ : List α} {l₂ : List β}
    (h : List.Forall₂ R l₁ l₂) : ∀ j ∈ l₂, ∃ i ∈ l₁, R i j := by
  induction h with
  | nil => intro j hj; cases hj
  | cons hab _ ih =>
    intro j hj
    rcases List.mem_cons.mp hj with rfl | hj
    · exact ⟨_, List.mem_cons_self _ _, hab⟩
    · obtain ⟨i, hi, hr⟩ := ih j hj
      exact ⟨i, List.mem_cons_of_mem _ hi, hr⟩

theorem composite_eq (P : Platform) (s2sr : List S2Product) (coll : ImageCollection)
    (h : sentinel2 P s2sr = .ok coll) :
    composite P s2sr = .ok (Image.clip P (ImageCollection.median coll) region_bbox) := by
  show (do let c ← sentinel2 P s2sr; pure (Image.clip P c.median region_bbox)) = _
  rw [h]
  rfl

theorem sentinel2_bandNames (P : Platform) (s2sr : List S2Product) (coll : ImageCollection)
    (h : sentinel2 P s2sr = .ok coll) :
    ∀ img ∈ coll, img.bandNames = ["B2", "B3", "B4", "B8", "B11", "B12"] := by
  obtain ⟨coll', h', hall⟩ := sentinel2_spec P s2sr
  rw [h] at h'
  cases h'
  intro img himg
  obtain ⟨i, hi, hr⟩ := forall2_mem_right hall img himg
  obtain ⟨s, _, rfl, _⟩ := selected_spec P s2sr i hi
  obtain ⟨img', h1, h2, _⟩ := cloudMask_toImage s
  rw [hr] at h1
  cases h1
  exact h2

/-- C1: inside the region rectangle the value of `composite` in each of the six
bands is the median of the values of exactly those images of `sentinel2` that
are unmasked at the pixel (no value when there is none; a value splits the
contributing values in halves), and outside the rectangle every pixel of
`composite` is masked. -/
theorem composite_is_clipped_median (P : Platform) (s2sr : List S2Product) :
    ∃ coll c, sentinel2 P s2sr = .ok coll ∧ composite P s2sr = .ok c ∧
      (∀ b p, b ∈ ["B2", "B3", "B4", "B8", "B11", "B12"] → P.covers region_bbox p = true →
        c.value b p = Reducer.median (coll.filterMap (fun img => img.value b p)) ∧
        (c.value b p = none ↔ coll.filterMap (fun img => img.value b p) = []) ∧
        ∀ m, c.value b p = some m →
          (coll.filterMap (fun img => img.value b p)).length ≤
            2 * (coll.filterMap (fun img => img.value b p)).countP (fun v => decide (v ≤ m)) ∧
          (coll.filterMap (fun img => img.value b p)).length ≤
            2 * (coll.filterMap (fun img => img.value b p)).countP (fun v => decide (m ≤ v))) ∧
      (∀ b p, P.covers region_bbox p = false → c.value b p = none) := by
  obtain ⟨coll, h, _⟩ := sentinel2_spec P s2sr
  refine ⟨coll, _, h, composite_eq P s2sr coll h, ?_, ?_⟩
  · intro b p hb hp
    have hval : (Image.clip P (ImageCollection.median coll) region_bbox).value b p =
        Reducer.median (coll.filterMap (fun img => img.value b p)) := by
      show (if P.covers region_bbox p = true then
        (if ((coll.head?.map (fun i => i.bandNames)).getD []).contains b then
          Reducer.median (coll.filterMap (fun i => i.value b p)) else none) else none) = _
      rw [if_pos hp]
      cases coll with
      | nil => rfl
      | cons i is =>
        have hn := sentinel2_bandNames P s2sr _ h i (List.mem_cons_self _ _)
        have hc : ((List.head? (i :: is)).map (fun i => i.bandNames)).getD [] = i.bandNames := rfl
        rw [hc, hn, if_pos (by simpa using hb)]
    refine ⟨hval, ?_, ?_⟩
    · rw [hval]
      exact median_eq_none_iff _
    · intro m hm
      rw [hval] at hm
      exact median_splits _ m hm
  · intro b p hp
    show (if P.covers region_bbox p = true then _ else none) = _
    rw [if_neg (by simp [hp])]

/-- C2: every value that contributes to `composite` is cloud-filtered. The
composite is the clipped median of `sentinel2`, and every image of `sentinel2`
comes from a product of the asset that starts at or after 2024-01-01 and before
2024-09-30, intersects `region_bbox` and has CLOUDY_PIXEL_PERCENTAGE below 20;
wherever the image has a value, it is the product value and MSK_CLDPRB is
present and below 20 there. -/
theorem composite_inputs_cloud_filtered (P : Platform) (s2sr : List S2Product) :
    ∃ coll, sentinel2 P s2sr = .ok coll ∧
      composite P s2sr = .ok (Image.clip P (ImageCollection.median coll) region_bbox) ∧
      ∀ img ∈ coll, ∃ s ∈ s2sr,
        Date 2024 1 1 ≤ s.time_start ∧ s.time_start < Date 2024 9 30 ∧
        P.intersects s.footprint region_bbox = true ∧ s.CLOUDY_PIXEL_PERCENTAGE < 20 ∧
        ∀ b p v, img.value b p = some v →
          s.band b p = some v ∧ ∃ k, s.MSK_CLDPRB p = some k ∧ k < 20 := by
  obtain ⟨coll, h, hall⟩ := sentinel2_spec P s2sr
  refine ⟨coll, h, composite_eq P s2sr coll h, ?_⟩
  intro img himg
  obtain ⟨i, hi, hr⟩ := forall2_mem_right hall img himg
  obtain ⟨s, hs, rfl, h1, h2, h3, h4⟩ := selected_spec P s2sr i hi
  refine ⟨s, hs, h1, h2, h3, h4, ?_⟩
  obtain ⟨img', e1, _, _, _, _, hv⟩ := cloudMask_toImage s
  rw [hr] at e1
  cases e1
  intro b p v hval
  rw [hv] at hval
  split_ifs at hval with hb
  split at hval
  · rename_i x k hx hk
    split_ifs at hval with hk20
    cases hval
    exact ⟨hx, k, hk, hk20⟩
  · cases hval

theorem composite_bandNames (P : Platform) (s2sr : List S2Product) :
    ∃ coll c, sentinel2 P s2sr = .ok coll ∧ composite P s2sr = .ok c ∧
      c = Image.clip P (ImageCollection.median coll) region_bbox ∧
      (coll = [] → c.bandNames = []) ∧
      (coll ≠ [] → c.bandNames = ["B2", "B3", "B4", "B8", "B11", "B12"]) := by
  obtain ⟨coll, h, _⟩ := sentinel2_spec P s2sr
  refine ⟨coll, _, h, composite_eq P s2sr coll h, rfl, ?_, ?_⟩
  · rintro rfl; rfl
  · intro hne
    cases coll with
    | nil => exact absurd rfl hne
    | cons i is => exact sentinel2_bandNames P s2sr _ h i (List.mem_cons_self _ _)

theorem nd_rename_ok (c : Image) (a b n : String) (ha : a ∈ c.bandNames) (hb : b ∈ c.bandNames) :
    ∃ img, (do let nd ← c.normalizedDifference [a, b]; nd.rename [n]) = Except.ok img ∧
      img.bandNames = [n] ∧ ∀ p, img.value n p = ndValue c a b p := by
  have hc : (c.bandNames.contains a && c.bandNames.contains b) = true := by
    simp [ha, hb]
  have h1 : ∃ nd, c.normalizedDifference [a, b] = Except.ok nd ∧ nd.bandNames = ["nd"] ∧
      ∀ p, nd.value "nd" p = ndValue c a b p := by
    simp only [Image.normalizedDifference, hc, if_true]
    exact ⟨_, rfl, rfl, fun p => rfl⟩
  obtain ⟨nd, e1, hn, hv⟩ := h1
  rw [e1]
  show ∃ img, Image.rename nd [n] = Except.ok img ∧ _
  unfold Image.rename
  rw [if_pos (by rw [hn]; rfl)]
  refine ⟨_, rfl, rfl, ?_⟩
  intro p
  show (match nd.bandNames.get? (List.indexOf n [n]) with
    | some old => nd.value old p
    | none => none) = _
  rw [hn]
  simp [hv]

theorem nd_rename_error (c : Image) (a b n : String) (h : c.bandNames = []) :
    ∃ e, (do let nd ← c.normalizedDifference [a, b]; nd.rename [n]) = Except.error e := by
  simp only [Image.normalizedDifference, h]
  exact ⟨_, rfl⟩

theorem nd_rename_other (c : Image) (a b n : String) (ha : a ∈ c.bandNames)
    (hb : b ∈ c.bandNames) (img : Image)
    (h : (do let nd ← c.normalizedDifference [a, b]; nd.rename [n]) = Except.ok img)
    (b2 : String) (hne : b2 ≠ n) (p : Pixel) : img.value b2 p = none := by
  have hc : (c.bandNames.contains a && c.bandNames.contains b) = true := by
    simp [ha, hb]
  have h1 : ∃ nd, c.normalizedDifference [a, b] = Except.ok nd ∧ nd.bandNames = ["nd"] := by
    simp only [Image.normalizedDifference, hc, if_true]
    exact ⟨_, rfl, rfl⟩
  obtain ⟨nd, e1, hn⟩ := h1
  rw [e1] at h
  change Image.rename nd [n] = Except.ok img at h
  unfold Image.rename at h
  rw [if_pos (by rw [hn]; rfl)] at h
  cases h
  show (match nd.bandNames.get? (List.indexOf b2 [n]) with
    | some old => nd.value old p
    | none => none) = none
  have hidx : List.indexOf b2 [n] = 1 := by
    simp [List.indexOf_cons, hne.symm]
  rw [hn, hidx]
  rfl

theorem ndValue_eq_some_iff (c : Image) (a b : String) (p : Pixel) (v : ℚ) :
    ndValue c a b p = some v ↔
      ∃ x y, c.value a p = some x ∧ c.value b p = some y ∧ 0 ≤ x ∧ 0 ≤ y ∧ x + y ≠ 0 ∧
        v = (x - y) / (x + y) := by
  constructor
  · intro h
    unfold ndValue at h
    split at h
    · rename_i x y hx hy
      split_ifs at h with hc
      cases h
      push_neg at hc
      exact ⟨x, y, hx, hy, hc.1, hc.2.1, hc.2.2, rfl⟩
    · cases h
  · rintro ⟨x, y, hx, hy, h0x, h0y, hs, rfl⟩
    unfold ndValue
    rw [hx, hy]
    have : ¬ (x < 0 ∨ y < 0 ∨ x + y = 0) := by
      push_neg
      exact ⟨h0x, h0y, hs⟩
    simp only [this, if_false]

theorem nd_bounds (x y : ℚ) (hx : 0 ≤ x) (hy : 0 ≤ y) (hs : 0 < x + y) :
    -1 ≤ (x - y) / (x + y) ∧ (x - y) / (x + y) ≤ 1 ∧ ((x - y) / (x + y) = 0 ↔ x = y) := by
  refine ⟨?_, ?_, ?_⟩
  · rw [le_div_iff₀ hs]; linarith
  · rw [div_le_iff₀ hs]; linarith
  · rw [div_eq_zero_iff]
    constructor
    · rintro (h | h)
      · linarith
      · linarith
    · intro h; left; linarith

theorem index_eq (P : Platform) (s2sr : List S2Product) (a b n : String)
    (ha : a ∈ ["B2", "B3", "B4", "B8", "B11", "B12"])
    (hb : b ∈ ["B2", "B3", "B4", "B8", "B11", "B12"]) :
    ∃ coll c, sentinel2 P s2sr = .ok coll ∧ composite P s2sr = .ok c ∧
      c = Image.clip P (ImageCollection.median coll) region_bbox ∧
      ((coll ≠ [] ∧ a ∈ c.bandNames ∧ b ∈ c.bandNames ∧
          ∃ img, (composite P s2sr >>= fun c => c.normalizedDifference [a, b] >>= fun nd =>
            nd.rename [n]) = Except.ok img ∧
          img.bandNames = [n] ∧ ∀ p, img.value n p = ndValue c a b p) ∨
       (coll = [] ∧ ∃ e, (composite P s2sr >>= fun c => c.normalizedDifference [a, b] >>= fun nd =>
          nd.rename [n]) = Except.error e)) := by
  obtain ⟨coll, c, h1, h2, h3, h4, h5⟩ := composite_bandNames P s2sr
  refine ⟨coll, c, h1, h2, h3, ?_⟩
  rw [h2]
  by_cases hne : coll = []
  · right
    exact ⟨hne, nd_rename_error c a b n (h4 hne)⟩
  · left
    have hn := h5 hne
    exact ⟨hne, by rw [hn]; exact ha, by rw [hn]; exact hb,
      nd_rename_ok c a b n (by rw [hn]; exact ha) (by rw [hn]; exact hb)⟩

theorem ndValue_of_nonneg (c : Image) (a b : String) (p : Pixel) (x y : ℚ)
    (hx : c.value a p = some x) (hy : c.value b p = some y) (h0x : 0 ≤ x) (h0y : 0 ≤ y)
    (hs : 0 < x + y) : ndValue c a b p = some ((x - y) / (x + y)) := by
  unfold ndValue
  rw [hx, hy]
  have : ¬ (x < 0 ∨ y < 0 ∨ x + y = 0) := by
    push_neg
    exact ⟨h0x, h0y, ne_of_gt hs⟩
  simp only [this, if_false]

/-- C3: each spectral index, when it evaluates, is a single band named NDVI,
NDWI or NDBI (no other band name has a value), and at every pixel it has the
value `v` exactly when the two bands of `composite` (B8 and B4, B3 and B8, B11
and B8) have non-negative values `x` and `y` there with a non-zero sum and
`v = (x - y) / (x + y)`; an index fails to evaluate only when `sentinel2` is
empty and `composite` has no bands. -/
theorem spectral_indices_are_normalized_ratios (P : Platform) (s2sr : List S2Product) :
    ∃ c, composite P s2sr = .ok c ∧
      (match ndvi P s2sr with
        | .ok i => i.bandNames = ["NDVI"] ∧
            (∀ p v, i.value "NDVI" p = some v ↔
              ∃ x y, c.value "B8" p = some x ∧ c.value "B4" p = some y ∧
                0 ≤ x ∧ 0 ≤ y ∧ x + y ≠ 0 ∧ v = (x - y) / (x + y)) ∧
            (∀ b p, b ≠ "NDVI" → i.value b p = none)
        | .error _ => sentinel2 P s2sr = .ok []) ∧
      (match ndwi P s2sr with
        | .ok i => i.bandNames = ["NDWI"] ∧
            (∀ p v, i.value "NDWI" p = some v ↔
              ∃ x y, c.value "B3" p = some x ∧ c.value "B8" p = some y ∧
                0 ≤ x ∧ 0 ≤ y ∧ x + y ≠ 0 ∧ v = (x - y) / (x + y)) ∧
            (∀ b p, b ≠ "NDWI" → i.value b p = none)
        | .error _ => sentinel2 P s2sr = .ok []) ∧
      (match ndbi P s2sr with
        | .ok i => i.bandNames = ["NDBI"] ∧
            (∀ p v, i.value "NDBI" p = some v ↔
              ∃ x y, c.value "B11" p = some x ∧ c.value "B8" p = some y ∧
                0 ≤ x ∧ 0 ≤ y ∧ x + y ≠ 0 ∧ v = (x - y) / (x + y)) ∧
            (∀ b p, b ≠ "NDBI" → i.value b p = none)
        | .error _ => sentinel2 P s2sr = .ok []) := by
  have key : ∀ a b n, a ∈ ["B2", "B3", "B4", "B8", "B11", "B12"] →
      b ∈ ["B2", "B3", "B4", "B8", "B11", "B12"] → ∀ c, composite P s2sr = .ok c →
      (match (composite P s2sr >>= fun c => c.normalizedDifference [a, b] >>= fun nd =>
          nd.rename [n] : Except String Image) with
        | .ok i => i.bandNames = [n] ∧
            (∀ p v, i.value n p = some v ↔
              ∃ x y, c.value a p = some x ∧ c.value b p = some y ∧
                0 ≤ x ∧ 0 ≤ y ∧ x + y ≠ 0 ∧ v = (x - y) / (x + y)) ∧
            (∀ b2 p, b2 ≠ n → i.value b2 p = none)
        | .error _ => sentinel2 P s2sr = .ok []) := by
    intro a b n ha hb c hc
    obtain ⟨coll, c1, h1, h2, _, h | h⟩ := index_eq P s2sr a b n ha hb
    · obtain ⟨_, hma, hmb, img, e, hn, hv⟩ := h
      rw [h2] at hc
      cases hc
      have e2 := e
      rw [h2] at e2
      rw [e]
      refine ⟨hn, ?_, ?_⟩
      · intro p v
        rw [hv]
        exact ndValue_eq_some_iff _ _ _ _ _
      · intro b2 p hne
        exact nd_rename_other c a b n hma hmb img e2 b2 hne p
    · obtain ⟨hnil, e, he⟩ := h
      rw [he]
      rw [h1, hnil]
  obtain ⟨_, c, _, hc, _⟩ := composite_bandNames P s2sr
  refine ⟨c, hc, ?_, ?_, ?_⟩
  · exact key "B8" "B4" "NDVI" (by decide) (by decide) c hc
  · exact key "B3" "B8" "NDWI" (by decide) (by decide) c hc
  · exact key "B11" "B8" "NDBI" (by decide) (by decide) c hc

/-- C9: at every pixel where the two input bands of an index have non-negative
values with a strictly positive sum, the index has a value, the value lies in
the closed interval from -1 to 1, and it is 0 exactly when the two band values
are equal (for NDVI, NDWI and NDBI; an index fails to evaluate only when
`sentinel2` is empty). -/
theorem spectral_indices_bounded (P : Platform) (s2sr : List S2Product) :
    ∃ c, composite P s2sr = .ok c ∧
      (match ndvi P s2sr with
        | .ok i => ∀ p x y, c.value "B8" p = some x → c.value "B4" p = some y →
            0 ≤ x → 0 ≤ y → 0 < x + y →
            ∃ v, i.value "NDVI" p = some v ∧ -1 ≤ v ∧ v ≤ 1 ∧ (v = 0 ↔ x = y)
        | .error _ => sentinel2 P s2sr = .ok []) ∧
      (match ndwi P s2sr with
        | .ok i => ∀ p x y, c.value "B3" p = some x → c.value "B8" p = some y →
            0 ≤ x → 0 ≤ y → 0 < x + y →
            ∃ v, i.value "NDWI" p = some v ∧ -1 ≤ v ∧ v ≤ 1 ∧ (v = 0 ↔ x = y)
        | .error _ => sentinel2 P s2sr = .ok []) ∧
      (match ndbi P s2sr with
        | .ok i => ∀ p x y, c.value "B11" p = some x → c.value "B8" p = some y →
            0 ≤ x → 0 ≤ y → 0 < x + y →
            ∃ v, i.value "NDBI" p = some v ∧ -1 ≤ v ∧ v ≤ 1 ∧ (v = 0 ↔ x = y)
        | .error _ => sentinel2 P s2sr = .ok []) := by
  have key : ∀ a b n, a ∈ ["B2", "B3", "B4", "B8", "B11", "B12"] →
      b ∈ ["B2", "B3", "B4", "B8", "B11", "B12"] → ∀ c, composite P s2sr = .ok c →
      (match (composite P s2sr >>= fun c => c.normalizedDifference [a, b] >>= fun nd =>
          nd.rename [n] : Except String Image) with
        | .ok i => ∀ p x y, c.value a p = some x → c.value b p = some y →
            0 ≤ x → 0 ≤ y → 0 < x + y →
            ∃ v, i.value n p = some v ∧ -1 ≤ v ∧ v ≤ 1 ∧ (v = 0 ↔ x = y)
        | .error _ => sentinel2 P s2sr = .ok []) := by
    intro a b n ha hb c hc
    obtain ⟨coll, c', h1, h2, _, h | h⟩ := index_eq P s2sr a b n ha hb
    · obtain ⟨_, _, _, img, e, _, hv⟩ := h
      rw [e]
      intro p x y hx hy h0x h0y hs
      rw [h2] at hc
      cases hc
      refine ⟨(x - y) / (x + y), ?_, nd_bounds x y h0x h0y hs⟩
      rw [hv]
      exact ndValue_of_nonneg _ _ _ _ x y hx hy h0x h0y hs
    · obtain ⟨hnil, e, he⟩ := h
      rw [he]
      rw [h1, hnil]
  obtain ⟨_, c, _, hc, _⟩ := composite_bandNames P s2sr
  refine ⟨c, hc, ?_, ?_, ?_⟩
  · exact key "B8" "B4" "NDVI" (by decide) (by decide) c hc
  · exact key "B3" "B8" "NDWI" (by decide) (by decide) c hc
  · exact key "B11" "B8" "NDBI" (by decide) (by decide) c hc

/-- The nine bands of the feature image, when `sentinel2` has an image. -/
theorem allFeatures_ok (P : Platform) (s2sr : List S2Product) (coll : ImageCollection)
    (h : sentinel2 P s2sr = .ok coll) (hne : coll ≠ []) :
    ∃ af, allFeatures P s2sr = .ok af ∧
      af.bandNames = ["B2", "B3", "B4", "B8", "B11", "B12", "NDVI", "NDWI", "NDBI"] := by
  obtain ⟨coll1, c, h1, h2, _, _, h5⟩ := composite_bandNames P s2sr
  rw [h] at h1
  cases h1
  have hn := h5 hne
  obtain ⟨i1, e1, n1, _⟩ := nd_rename_ok c "B8" "B4" "NDVI" (by rw [hn]; decide) (by rw [hn]; decide)
  obtain ⟨i2, e2, n2, _⟩ := nd_rename_ok c "B3" "B8" "NDWI" (by rw [hn]; decide) (by rw [hn]; decide)
  obtain ⟨i3, e3, n3, _⟩ := nd_rename_ok c "B11" "B8" "NDBI" (by rw [hn]; decide) (by rw [hn]; decide)
  have d1 : ndvi P s2sr = .ok i1 := by
    show (composite P s2sr >>= fun c => c.normalizedDifference ["B8", "B4"] >>= fun nd =>
      nd.rename ["NDVI"]) = _
    rw [h2]; exact e1
  have d2 : ndwi P s2sr = .ok i2 := by
    show (composite P s2sr >>= fun c => c.normalizedDifference ["B3", "B8"] >>= fun nd =>
      nd.rename ["NDWI"]) = _
    rw [h2]; exact e2
  have d3 : ndbi P s2sr = .ok i3 := by
    show (composite P s2sr >>= fun c => c.normalizedDifference ["B11", "B8"] >>= fun nd =>
      nd.rename ["NDBI"]) = _
    rw [h2]; exact e3
  refine ⟨Image.cat [c, i1, i2, i3], ?_, ?_⟩
  · show (composite P s2sr >>= fun c => ndvi P s2sr >>= fun i1 => ndwi P s2sr >>= fun i2 =>
      ndbi P s2sr >>= fun i3 => pure (Image.cat [c, i1, i2, i3])) = _
    rw [h2, d1, d2, d3]
    rfl
  · show [c, i1, i2, i3].flatMap (fun i => i.bandNames) = _
    simp [List.flatMap, hn, n1, n2, n3]

/-- Without an image in `sentinel2` the feature image does not evaluate. -/
theorem allFeatures_error (P : Platform) (s2sr : List S2Product)
    (h : sentinel2 P s2sr = .ok []) : ∃ e, allFeatures P s2sr = .error e := by
  obtain ⟨coll1, c, h1, h2, _, h4, _⟩ := composite_bandNames P s2sr
  rw [h] at h1
  cases h1
  obtain ⟨e, he⟩ := nd_rename_error c "B8" "B4" "NDVI" (h4 rfl)
  have d1 : ndvi P s2sr = .error e := by
    show (composite P s2sr >>= fun c => c.normalizedDifference ["B8", "B4"] >>= fun nd =>
      nd.rename ["NDVI"]) = _
    rw [h2]; exact he
  refine ⟨e, ?_⟩
  show (composite P s2sr >>= fun c => ndvi P s2sr >>= fun i1 => ndwi P s2sr >>= fun i2 =>
      ndbi P s2sr >>= fun i3 => pure (Image.cat [c, i1, i2, i3])) = _
  rw [h2, d1]
  rfl

/-- The rest of the script once the feature image has evaluated. -/
theorem pipeline_ok (P : Platform) (smp : List Sample) (s2sr : List S2Product) (af : Image)
    (h : allFeatures P s2sr = .ok af) :
    ∃ t w ts vs cls v m,
      t = af.sampleRegions P (samples smp) ["class"] 20 4 ∧
      w = FeatureCollection.randomColumn P t "random" ∧
      ts = FeatureCollection.filter w (Filter.lt "random" 0.7) ∧
      vs = FeatureCollection.filter w (Filter.gte "random" 0.7) ∧
      cls = (Classifier.smileRandomForest 50).train P ts "class" af.bandNames ∧
      v = FeatureCollection.classify vs cls ∧
      m = FeatureCollection.errorMatrix v "class" "classification" ∧
      training P smp s2sr = .ok t ∧ withRandom P smp s2sr = .ok w ∧
      trainingSet P smp s2sr = .ok ts ∧ validationSet P smp s2sr = .ok vs ∧
      classifier P smp s2sr = .ok cls ∧ validation P smp s2sr = .ok v ∧
      confusionMatrix P smp s2sr = .ok m ∧ overallAccuracy P smp s2sr = .ok m.accuracy ∧
      classified P smp s2sr = af.classify cls := by
  have e1 : training P smp s2sr = .ok (af.sampleRegions P (samples smp) ["class"] 20 4) := by
    unfold training; rw [h]; rfl
  have e2 : withRandom P smp s2sr = .ok (FeatureCollection.randomColumn P
      (af.sampleRegions P (samples smp) ["class"] 20 4) "random") := by
    unfold withRandom; rw [e1]; rfl
  have e3 := e2
  have e4 : trainingSet P smp s2sr = .ok (FeatureCollection.filter (FeatureCollection.randomColumn P
      (af.sampleRegions P (samples smp) ["class"] 20 4) "random") (Filter.lt "random" 0.7)) := by
    unfold trainingSet; rw [e2]; rfl
  have e5 : validationSet P smp s2sr = .ok (FeatureCollection.filter
      (FeatureCollection.randomColumn P
      (af.sampleRegions P (samples smp) ["class"] 20 4) "random") (Filter.gte "random" 0.7)) := by
    unfold validationSet; rw [e2]; rfl
  have e6 : classifier P smp s2sr = .ok ((Classifier.smileRandomForest 50).train P
      (FeatureCollection.filter (FeatureCollection.randomColumn P
      (af.sampleRegions P (samples smp) ["class"] 20 4) "random") (Filter.lt "random" 0.7))
      "class" af.bandNames) := by
    unfold classifier; rw [e4, h]; rfl
  have e7 : validation P smp s2sr = .ok (FeatureCollection.classify (FeatureCollection.filter
      (FeatureCollection.randomColumn P
      (af.sampleRegions P (samples smp) ["class"] 20 4) "random") (Filter.gte "random" 0.7))
      ((Classifier.smileRandomForest 50).train P
      (FeatureCollection.filter (FeatureCollection.randomColumn P
      (af.sampleRegions P (samples smp) ["class"] 20 4) "random") (Filter.lt "random" 0.7))
      "class" af.bandNames)) := by
    unfold validation; rw [e5, e6]; rfl
  refine ⟨_, _, _, _, _, _, _, rfl, rfl, rfl, rfl, rfl, rfl, rfl, e1, e2, e4, e5, e6, e7, ?_, ?_, ?_⟩
  · unfold confusionMatrix; rw [e7]; rfl
  · unfold overallAccuracy confusionMatrix; rw [e7]; rfl
  · unfold classified; rw [h, e6]; rfl

/-- Nothing downstream evaluates when the feature image does not. -/
theorem pipeline_error (P : Platform) (smp : List Sample) (s2sr : List S2Product) (e : String)
    (h : allFeatures P s2sr = .error e) :
    training P smp s2sr = .error e ∧ withRandom P smp s2sr = .error e ∧
      trainingSet P smp s2sr = .error e ∧ validationSet P smp s2sr = .error e ∧
      classifier P smp s2sr = .error e ∧ validation P smp s2sr = .error e ∧
      confusionMatrix P smp s2sr = .error e ∧ overallAccuracy P smp s2sr = .error e ∧
      classified P smp s2sr = .error e := by
  have e1 : training P smp s2sr = .error e := by unfold training; rw [h]; rfl
  have e2 : withRandom P smp s2sr = .error e := by unfold withRandom; rw [e1]; rfl
  have e4 : trainingSet P smp s2sr = .error e := by unfold trainingSet; rw [e2]; rfl
  have e5 : validationSet P smp s2sr = .error e := by unfold validationSet; rw [e2]; rfl
  have e6 : classifier P smp s2sr = .error e := by unfold classifier; rw [e4]; rfl
  have e7 : validation P smp s2sr = .error e := by unfold validation; rw [e5]; rfl
  have e8 : confusionMatrix P smp s2sr = .error e := by unfold confusionMatrix; rw [e7]; rfl
  refine ⟨e1, e2, e4, e5, e6, e7, e8, ?_, ?_⟩
  · unfold overallAccuracy; rw [e8]; rfl
  · unfold classified; rw [h]; rfl

/-- The feature image evaluates exactly when `sentinel2` has an image. -/
theorem allFeatures_cases (P : Platform) (s2sr : List S2Product) :
    (∃ af, allFeatures P s2sr = .ok af ∧
      af.bandNames = ["B2", "B3", "B4", "B8", "B11", "B12", "NDVI", "NDWI", "NDBI"] ∧
      sentinel2 P s2sr ≠ .ok []) ∨
    (∃ e, allFeatures P s2sr = .error e ∧ sentinel2 P s2sr = .ok []) := by
  obtain ⟨coll, h, _⟩ := sentinel2_spec P s2sr
  by_cases hne : coll = []
  · subst hne
    obtain ⟨e, he⟩ := allFeatures_error P s2sr h
    exact Or.inr ⟨e, he, h⟩
  · obtain ⟨af, haf, hb⟩ := allFeatures_ok P s2sr coll h hne
    refine Or.inl ⟨af, haf, hb, ?_⟩
    rw [h]
    intro hc
    cases hc
    exact hne rfl

/-- C8: the input properties of the classifier are the band names of
`allFeatures`, and neither the label property `class` nor the split column
`random` is among them; when `allFeatures` does not evaluate there is no
classifier at all. -/
theorem classifier_inputs_exclude_label_and_split (P : Platform) (smp : List Sample)
    (s2sr : List S2Product) :
    match allFeatures P s2sr with
    | .ok af => ∃ cls, classifier P smp s2sr = .ok cls ∧
        cls.inputProperties = af.bandNames ∧
        "class" ∉ cls.inputProperties ∧ "random" ∉ cls.inputProperties ∧
        cls.classProperty = "class"
    | .error e => classifier P smp s2sr = .error e := by
  rcases allFeatures_cases P s2sr with ⟨af, haf, hb, _⟩ | ⟨e, he, _⟩
  · rw [haf]
    obtain ⟨t, w, ts, vs, cls, v, m, _, _, _, _, hcls, _, _, _, _, _, _, e6, _⟩ :=
      pipeline_ok P smp s2sr af haf
    refine ⟨cls, e6, ?_, ?_, ?_, ?_⟩
    · rw [hcls]; rfl
    · rw [hcls]
      show "class" ∉ af.bandNames
      rw [hb]; decide
    · rw [hcls]
      show "random" ∉ af.bandNames
      rw [hb]; decide
    · rw [hcls]; rfl
  · rw [he]
    exact (pipeline_error P smp s2sr e he).2.2.2.2.1

theorem find_filter_ne (ps : Properties) (k k2 : String) (h : k ≠ k2) :
    (ps.filter (fun kv => !(kv.1 == k))).find? (fun kv => kv.1 == k2) =
      ps.find? (fun kv => kv.1 == k2) := by
  induction ps with
  | nil => rfl
  | cons kv rest ih =>
    by_cases hk : kv.1 = k
    · have hk2 : ¬ kv.1 = k2 := by rw [hk]; exact h
      rw [List.filter_cons_of_neg (by simpa using hk), List.find?_cons_of_neg _ (by simpa using hk2)]
      exact ih
    · rw [List.filter_cons_of_pos (by simpa using hk)]
      by_cases hk2 : kv.1 = k2
      · rw [List.find?_cons_of_pos _ (by simpa using hk2),
          List.find?_cons_of_pos _ (by simpa using hk2)]
      · rw [List.find?_cons_of_neg _ (by simpa using hk2),
          List.find?_cons_of_neg _ (by simpa using hk2)]
        exact ih

theorem get_set (ps : Properties) (k k2 : String) (v : ℚ) :
    (ps.set k v).get k2 = if k = k2 then some v else ps.get k2 := by
  unfold Properties.set Properties.get
  by_cases h : k = k2
  · subst h
    simp
  · rw [if_neg h, List.find?_cons_of_neg _ (by simpa using h), find_filter_ne ps k k2 h]

theorem collect_map_some {α : Type} (l : List α) (g : α → Option ℚ) (vs : List ℚ)
    (h : collect (l.map g) = some vs) :
    vs.length = l.length ∧ ∀ b ∈ l, (g b).isSome = true := by
  induction l generalizing vs with
  | nil =>
    simp [collect] at h
    subst h
    simp
  | cons a l ih =>
    simp only [List.map_cons] at h
    cases hg : g a with
    | none => rw [hg] at h; simp [collect] at h
    | some v =>
      rw [hg] at h
      simp only [collect, Option.map_eq_some'] at h
      obtain ⟨vs1, h1, rfl⟩ := h
      obtain ⟨hl, hall⟩ := ih vs1 h1
      refine ⟨by simp [hl], ?_⟩
      intro b hb
      rcases List.mem_cons.mp hb with rfl | hb
      · simp [hg]
      · exact hall b hb

theorem collect_of_isSome {α : Type} (l : List α) (g : α → Option ℚ)
    (h : ∀ b ∈ l, (g b).isSome = true) : ∃ vs, collect (l.map g) = some vs := by
  induction l with
  | nil => exact ⟨[], rfl⟩
  | cons a l ih =>
    obtain ⟨vs, hvs⟩ := ih (fun b hb => h b (List.mem_cons_of_mem _ hb))
    obtain ⟨v, hv⟩ := Option.isSome_iff_exists.mp (h a (List.mem_cons_self _ _))
    refine ⟨v :: vs, ?_⟩
    simp [collect, hv, hvs]

theorem get_zip_collect (l : List String) (g : String → Option ℚ) (vs : List ℚ)
    (h : collect (l.map g) = some vs) :
    ∀ b ∈ l, Properties.get (l.zip vs) b = g b := by
  induction l generalizing vs with
  | nil => intro b hb; cases hb
  | cons a l ih =>
    simp only [List.map_cons] at h
    cases hg : g a with
    | none => rw [hg] at h; simp [collect] at h
    | some v =>
      rw [hg] at h
      simp only [collect, Option.map_eq_some'] at h
      obtain ⟨vs1, h1, rfl⟩ := h
      intro b hb
      by_cases hab : a = b
      · subst hab
        simp [Properties.get, hg]
      · have hb2 : b ∈ l := by
          rcases List.mem_cons.mp hb with rfl | hb
          · exact absurd rfl hab
          · exact hb
        have := ih vs1 h1 b hb2
        simp only [Properties.get] at this ⊢
        simp only [List.zip_cons_cons]
        rw [List.find?_cons_of_neg _ (by simpa using hab)]
        exact this

theorem natLabel_natCast (n : Nat) : natLabel (n : ℚ) = some n := by
  simp [natLabel]

theorem sampleRegions_row (P : Platform) (af : Image) (smp : List Sample) (r : Feature)
    (hr : r ∈ af.sampleRegions P (samples smp) ["class"] 20 4) :
    ∃ s ∈ smp, ∃ p ∈ P.pixels s.geometry 20,
      r.properties.get "class" = some (s.classLabel : ℚ) ∧
      ∀ b ∈ af.bandNames, b ≠ "class" →
        r.properties.get b = af.value b p ∧ (af.value b p).isSome = true := by
  unfold Image.sampleRegions samples at hr
  rw [List.mem_flatMap] at hr
  obtain ⟨f, hf, hr⟩ := hr
  obtain ⟨s, hs, rfl⟩ := List.mem_map.mp hf
  simp only [Sample.toFeature] at hr
  rw [List.mem_filterMap] at hr
  obtain ⟨kp, hkp, hrow⟩ := hr
  refine ⟨s, hs, kp.2, List.snd_mem_of_mem_enum hkp, ?_⟩
  cases hc : collect (af.bandNames.map (fun b => af.value b kp.2)) with
  | none => rw [hc] at hrow; cases hrow
  | some vs =>
    rw [hc] at hrow
    simp only [Option.some.injEq] at hrow
    subst hrow
    have hcopy : copyProperties [("class", (s.classLabel : ℚ))] ["class"] (af.bandNames.zip vs) =
        Properties.set (af.bandNames.zip vs) "class" (s.classLabel : ℚ) := by
      simp [copyProperties, Properties.get]
    simp only [hcopy]
    refine ⟨by rw [get_set]; simp, ?_⟩
    intro b hb hne
    rw [get_set, if_neg (fun h => hne h.symm)]
    exact ⟨get_zip_collect _ _ vs hc b hb, (collect_map_some _ _ vs hc).2 b hb⟩

theorem randomColumn_row (P : Platform) (t : FeatureCollection) (r : Feature)
    (hr : r ∈ FeatureCollection.randomColumn P t "random") :
    ∃ r0 ∈ t, r.index = r0.index ∧
      r.properties = r0.properties.set "random" (P.random 0 r0.index) ∧
      r.properties.get "random" = some (P.random 0 r0.index) := by
  unfold FeatureCollection.randomColumn FeatureCollection.randomColumnSeeded at hr
  obtain ⟨r0, h0, rfl⟩ := List.mem_map.mp hr
  refine ⟨r0, h0, rfl, rfl, ?_⟩
  show (r0.properties.set "random" (P.random 0 r0.index)).get "random" = _
  rw [get_set, if_pos rfl]

theorem split_test (ps : Properties) (x : ℚ) (h : ps.get "random" = some x) :
    (Filter.lt "random" 0.7).test ps = decide (x < 0.7) ∧
      (Filter.gte "random" 0.7).test ps = !decide (x < 0.7) := by
  unfold Filter.test
  simp only [h]
  by_cases hx : x < 0.7
  · simp [hx, not_le.mpr hx]
  · simp [hx, not_lt.mp hx]

theorem split_partition (P : Platform) (t : FeatureCollection) :
    (∀ r ∈ FeatureCollection.randomColumn P t "random",
      ∃ x, r.properties.get "random" = some x ∧
        ((x < 0.7 ∧
          r ∈ FeatureCollection.filter (FeatureCollection.randomColumn P t "random")
            (Filter.lt "random" 0.7) ∧
          r ∉ FeatureCollection.filter (FeatureCollection.randomColumn P t "random")
            (Filter.gte "random" 0.7)) ∨
        (x ≥ 0.7 ∧
          r ∈ FeatureCollection.filter (FeatureCollection.randomColumn P t "random")
            (Filter.gte "random" 0.7) ∧
          r ∉ FeatureCollection.filter (FeatureCollection.randomColumn P t "random")
            (Filter.lt "random" 0.7)))) ∧
    (FeatureCollection.filter (FeatureCollection.randomColumn P t "random")
        (Filter.lt "random" 0.7)).length +
      (FeatureCollection.filter (FeatureCollection.randomColumn P t "random")
        (Filter.gte "random" 0.7)).length =
      (FeatureCollection.randomColumn P t "random").length := by
  constructor
  · intro r hr
    obtain ⟨r0, _, _, _, hx⟩ := randomColumn_row P t r hr
    obtain ⟨h1, h2⟩ := split_test r.properties _ hx
    refine ⟨_, hx, ?_⟩
    unfold FeatureCollection.filter
    simp only [List.mem_filter, h1, h2, hr, true_and]
    by_cases hlt : P.random 0 r0.index < 0.7
    · left; simp [hlt]
    · right; simp [hlt, not_lt.mp hlt]
  · have hcongr : FeatureCollection.filter (FeatureCollection.randomColumn P t "random")
        (Filter.gte "random" 0.7) =
        List.filter (fun r => !(Filter.lt "random" 0.7).test r.properties)
          (FeatureCollection.randomColumn P t "random") := by
      unfold FeatureCollection.filter
      apply List.filter_congr
      intro r hr
      obtain ⟨r0, _, _, _, hx⟩ := randomColumn_row P t r hr
      obtain ⟨h1, h2⟩ := split_test r.properties _ hx
      rw [h1, h2]
    rw [hcongr]
    unfold FeatureCollection.filter
    rw [← List.length_append]
    exact (List.filter_append_perm _ _).length_eq

/-- C4: the split is held out. Every row of `withRandom` carries a `random`
value and lies in exactly one of `trainingSet` (value below 0.7) and
`validationSet` (value at least 0.7); both sets hold rows of `withRandom` only
and their sizes add up to its size; the classifier is the random forest
trained on `trainingSet`, its decision function is learnt from the rows of
`trainingSet` alone, and no row of `validationSet` is a row of `trainingSet`.
The split fails to evaluate only when `sentinel2` is empty. -/
theorem split_is_held_out (P : Platform) (smp : List Sample) (s2sr : List S2Product) :
    match withRandom P smp s2sr with
    | .ok w => ∃ ts vs af cls, trainingSet P smp s2sr = .ok ts ∧
        validationSet P smp s2sr = .ok vs ∧ allFeatures P s2sr = .ok af ∧
        classifier P smp s2sr = .ok cls ∧
        (∀ r ∈ w, ∃ x, r.properties.get "random" = some x ∧
          ((x < 0.7 ∧ r ∈ ts ∧ r ∉ vs) ∨ (x ≥ 0.7 ∧ r ∈ vs ∧ r ∉ ts))) ∧
        (∀ r, r ∈ ts ∨ r ∈ vs → r ∈ w) ∧
        ts.length + vs.length = w.length ∧
        cls = (Classifier.smileRandomForest 50).train P ts "class" af.bandNames ∧
        cls.decide = P.smileRandomForest 50 0 (trainingData ts "class" af.bandNames) ∧
        (∀ r ∈ vs, r ∉ ts)
    | .error _ => sentinel2 P s2sr = .ok [] := by
  rcases allFeatures_cases P s2sr with ⟨af, haf, _, _⟩ | ⟨e, he, hnil⟩
  · obtain ⟨t, w, ts, vs, cls, v, m, _, hw, hts, hvs, hcls, _, _, _, e2, e4, e5, e6, _⟩ :=
      pipeline_ok P smp s2sr af haf
    rw [e2]
    obtain ⟨hpart, hlen⟩ := split_partition P t
    rw [← hw, ← hts, ← hvs] at hlen
    refine ⟨ts, vs, af, cls, e4, e5, haf, e6, ?_, ?_, hlen, hcls, ?_, ?_⟩
    · intro r hr
      rw [hw] at hr
      obtain ⟨x, hx, h⟩ := hpart r hr
      rw [← hw, ← hts, ← hvs] at h
      exact ⟨x, hx, h⟩
    · intro r hr
      rw [hts, hvs] at hr
      unfold FeatureCollection.filter at hr
      rcases hr with hr | hr
      · exact (List.mem_filter.mp hr).1
      · exact (List.mem_filter.mp hr).1
    · rw [hcls]; rfl
    · intro r hr
      have hrw : r ∈ w := by
        rw [hvs] at hr
        exact (List.mem_filter.mp hr).1
      rw [hw] at hrw
      obtain ⟨x, _, h⟩ := hpart r hrw
      rw [← hw, ← hts, ← hvs] at h
      rcases h with ⟨_, _, h⟩ | ⟨_, _, h⟩
      · exact absurd hr h
      · exact h
  · rw [(pipeline_error P smp s2sr e he).2.1]
    exact hnil

theorem training_row_vector (P : Platform) (af : Image) (smp : List Sample) (r : Feature)
    (hb : af.bandNames = ["B2", "B3", "B4", "B8", "B11", "B12", "NDVI", "NDWI", "NDBI"])
    (hr : r ∈ af.sampleRegions P (samples smp) ["class"] 20 4) :
    ∃ s ∈ smp, ∃ p ∈ P.pixels s.geometry 20,
      r.properties.get "class" = some (s.classLabel : ℚ) ∧
      af.bandNames.map r.properties.get = af.bandNames.map (fun b => af.value b p) ∧
      ∃ vs, collect (af.bandNames.map r.properties.get) = some vs := by
  obtain ⟨s, hs, p, hp, hclass, hall⟩ := sampleRegions_row P af smp r hr
  have hne : ∀ b ∈ af.bandNames, b ≠ "class" := by
    rw [hb]; decide
  refine ⟨s, hs, p, hp, hclass, ?_, ?_⟩
  · apply List.map_congr_left
    intro b hbm
    exact (hall b hbm (hne b hbm)).1
  · apply collect_of_isSome
    intro b hbm
    rw [(hall b hbm (hne b hbm)).1]
    exact (hall b hbm (hne b hbm)).2

/-- C6: when `allFeatures` evaluates it has exactly the nine bands B2, B3, B4,
B8, B11, B12, NDVI, NDWI, NDBI in that order; the training table is sampled
from it and every row carries, under these nine names, the values of the image
at the sampled pixel; the input properties of the classifier are these nine
names; and `classified` is that classifier applied to the same image, deciding
at each pixel on the values of the nine bands there. `allFeatures` fails to
evaluate only when `sentinel2` is empty. -/
theorem features_shared_by_training_and_prediction (P : Platform) (smp : List Sample)
    (s2sr : List S2Product) :
    match allFeatures P s2sr with
    | .ok af =>
      af.bandNames = ["B2", "B3", "B4", "B8", "B11", "B12", "NDVI", "NDWI", "NDBI"] ∧
      ∃ t cls img, training P smp s2sr = .ok t ∧
        t = af.sampleRegions P (samples smp) ["class"] 20 4 ∧
        classifier P smp s2sr = .ok cls ∧
        cls.inputProperties = ["B2", "B3", "B4", "B8", "B11", "B12", "NDVI", "NDWI", "NDBI"] ∧
        classified P smp s2sr = .ok img ∧ af.classify cls = .ok img ∧
        img.bandNames = ["classification"] ∧
        (∀ r ∈ t, ∃ p, cls.inputProperties.map r.properties.get =
            cls.inputProperties.map (fun b => af.value b p) ∧
          ∃ vs, collect (cls.inputProperties.map r.properties.get) = some vs) ∧
        (∀ p, img.value "classification" p =
          (collect (cls.inputProperties.map (fun b => af.value b p))).map
            (fun v => ((cls.decide v : Nat) : ℚ)))
    | .error _ => sentinel2 P s2sr = .ok [] := by
  rcases allFeatures_cases P s2sr with ⟨af, haf, hb, _⟩ | ⟨e, he, hnil⟩
  · rw [haf]
    obtain ⟨t, w, ts, vs, cls, v, m, ht, _, _, _, hcls, _, _, e1, _, _, _, e6, _, _, _, e9⟩ :=
      pipeline_ok P smp s2sr af haf
    have hin : cls.inputProperties = af.bandNames := by rw [hcls]; rfl
    have hall : (cls.inputProperties.all (fun n => af.bandNames.contains n)) = true := by
      rw [hin, hb]; decide
    have hclassify : ∃ img, af.classify cls = .ok img ∧ img.bandNames = ["classification"] ∧
        ∀ p, img.value "classification" p =
          (collect (cls.inputProperties.map (fun b => af.value b p))).map
            (fun v => ((cls.decide v : Nat) : ℚ)) := by
      unfold Image.classify
      rw [if_pos hall]
      exact ⟨_, rfl, rfl, fun p => rfl⟩
    obtain ⟨img, hi, hn, hv⟩ := hclassify
    refine ⟨hb, t, cls, img, e1, ht, e6, by rw [hin, hb], by rw [e9, hi], hi, hn, ?_, hv⟩
    intro r hr
    rw [ht] at hr
    obtain ⟨s, _, p, _, _, h1, h2⟩ := training_row_vector P af smp r hb hr
    rw [hin]
    exact ⟨p, h1, h2⟩
  · rw [he]
    exact hnil

theorem rangeSum_indicator (n k : Nat) :
    ((List.range n).map (fun i => if k = i then 1 else 0)).sum = if k < n then 1 else 0 := by
  induction n with
  | zero => simp
  | succ n ih =>
    rw [List.range_succ, List.map_append, List.sum_append, ih]
    by_cases h1 : k < n
    · have h2 : k ≠ n := by omega
      have h3 : k < n + 1 := by omega
      simp [h1, h2, h3]
    · by_cases h2 : k = n
      · subst h2; simp
      · have h3 : ¬ k < n + 1 := by omega
        simp [h1, h2, h3]

theorem rangeSum_add (n : Nat) (f g : Nat → Nat) :
    ((List.range n).map (fun i => f i + g i)).sum =
      ((List.range n).map f).sum + ((List.range n).map g).sum := by
  induction n with
  | zero => simp
  | succ n ih =>
    simp only [List.range_succ, List.map_append, List.sum_append, ih, List.map_cons, List.map_nil,
      List.sum_cons, List.sum_nil]
    omega

theorem count_pair_cons (p : Nat × Nat) (ps : List (Nat × Nat)) (i j : Nat) :
    (p :: ps).count (i, j) = ps.count (i, j) + (if p.1 = i then (if p.2 = j then 1 else 0) else 0) := by
  rw [List.count_cons]
  congr 1
  obtain ⟨a, b⟩ := p
  by_cases h1 : a = i
  · by_cases h2 : b = j
    · simp [h1, h2]
    · simp [h1, h2]
  · simp [h1]

theorem total_eq_length (n : Nat) (ps : List (Nat × Nat))
    (h : ∀ p ∈ ps, p.1 < n ∧ p.2 < n) :
    ((List.range n).map (fun i => ((List.range n).map (fun j => ps.count (i, j))).sum)).sum =
      ps.length := by
  induction ps with
  | nil => simp
  | cons p ps ih =>
    have hp := h p (List.mem_cons_self _ _)
    have ih2 := ih (fun q hq => h q (List.mem_cons_of_mem _ hq))
    have inner : ∀ i, ((List.range n).map (fun j => (p :: ps).count (i, j))).sum =
        ((List.range n).map (fun j => ps.count (i, j))).sum + (if p.1 = i then 1 else 0) := by
      intro i
      simp only [count_pair_cons]
      rw [rangeSum_add]
      congr 1
      by_cases h1 : p.1 = i
      · simp only [h1, if_true]
        rw [rangeSum_indicator, if_pos hp.2]
      · simp [h1]
    simp only [inner]
    rw [rangeSum_add, ih2, rangeSum_indicator, if_pos hp.1]
    simp

theorem trace_eq_countP (n : Nat) (ps : List (Nat × Nat))
    (h : ∀ p ∈ ps, p.1 < n ∧ p.2 < n) :
    ((List.range n).map (fun i => ps.count (i, i))).sum =
      ps.countP (fun p => decide (p.1 = p.2)) := by
  induction ps with
  | nil => simp
  | cons p ps ih =>
    have hp := h p (List.mem_cons_self _ _)
    have ih2 := ih (fun q hq => h q (List.mem_cons_of_mem _ hq))
    simp only [count_pair_cons]
    rw [rangeSum_add, ih2, List.countP_cons]
    congr 1
    by_cases h1 : p.1 = p.2
    · have : ∀ i, (if p.1 = i then (if p.2 = i then 1 else 0) else 0) = if p.1 = i then 1 else 0 := by
        intro i
        by_cases h2 : p.1 = i
        · simp [h2, ← h1]
        · simp [h2]
      simp only [this]
      rw [rangeSum_indicator, if_pos hp.1]
      simp [h1]
    · have : ∀ i, (if p.1 = i then (if p.2 = i then 1 else 0) else 0) = 0 := by
        intro i
        by_cases h2 : p.1 = i
        · have : p.2 ≠ i := by rw [← h2]; exact fun h => h1 h.symm
          simp [h2, this]
        · simp [h2]
      simp only [this]
      simp [h1]

theorem foldl_max_bound (ps : List (Nat × Nat)) (m0 : Nat) :
    m0 ≤ ps.foldl (fun m ab => max m (max ab.1 ab.2 + 1)) m0 ∧
      ∀ p ∈ ps, p.1 < ps.foldl (fun m ab => max m (max ab.1 ab.2 + 1)) m0 ∧
        p.2 < ps.foldl (fun m ab => max m (max ab.1 ab.2 + 1)) m0 := by
  induction ps generalizing m0 with
  | nil => simp
  | cons q qs ih =>
    simp only [List.foldl_cons]
    obtain ⟨h1, h2⟩ := ih (max m0 (max q.1 q.2 + 1))
    refine ⟨le_trans (le_max_left _ _) h1, ?_⟩
    intro p hp
    rcases List.mem_cons.mp hp with rfl | hp
    · have : max p.1 p.2 + 1 ≤ max m0 (max p.1 p.2 + 1) := le_max_right _ _
      have h3 : p.1 ≤ max p.1 p.2 := le_max_left _ _
      have h4 : p.2 ≤ max p.1 p.2 := le_max_right _ _
      constructor <;> omega
    · exact h2 p hp

theorem labelPairs_spec (c : FeatureCollection) (actual predicted : String)
    (H : ∀ r ∈ c, ∃ a b : Nat, r.properties.get actual = some (a : ℚ) ∧
      r.properties.get predicted = some (b : ℚ)) :
    (labelPairs c actual predicted).length = c.length ∧
    (∀ i j : Nat, (labelPairs c actual predicted).count (i, j) =
      c.countP (fun r => decide (r.properties.get actual = some (i : ℚ) ∧
        r.properties.get predicted = some (j : ℚ)))) ∧
    (labelPairs c actual predicted).countP (fun p => decide (p.1 = p.2)) =
      c.countP (fun r => decide (r.properties.get predicted = r.properties.get actual)) := by
  induction c with
  | nil => simp [labelPairs]
  | cons r rs ih =>
    obtain ⟨a, b, ha, hb⟩ := H r (List.mem_cons_self _ _)
    obtain ⟨ih1, ih2, ih3⟩ := ih (fun q hq => H q (List.mem_cons_of_mem _ hq))
    have hcons : labelPairs (r :: rs) actual predicted = (a, b) :: labelPairs rs actual predicted := by
      simp [labelPairs, ha, hb, natLabel_natCast]
    rw [hcons]
    refine ⟨by simp [ih1], ?_, ?_⟩
    · intro i j
      rw [count_pair_cons, ih2, List.countP_cons]
      congr 1
      simp only [ha, hb, Option.some.injEq, Nat.cast_inj]
      by_cases h1 : a = i
      · by_cases h2 : b = j
        · simp [h1, h2]
        · simp [h1, h2]
      · simp [h1]
    · rw [List.countP_cons, List.countP_cons, ih3]
      congr 1
      simp only [ha, hb, Option.some.injEq, Nat.cast_inj]
      by_cases h1 : a = b
      · simp [h1]
      · have : ¬ b = a := fun h => h1 h.symm
        simp [h1, this]

theorem errorMatrix_entry (c : FeatureCollection) (actual predicted : String) (i j : Nat) :
    (c.errorMatrix actual predicted).entry i j = (labelPairs c actual predicted).count (i, j) := by
  have hb := (foldl_max_bound (labelPairs c actual predicted) 0).2
  unfold ConfusionMatrix.entry FeatureCollection.errorMatrix
  simp only
  generalize (labelPairs c actual predicted).foldl (fun m ab => max m (max ab.1 ab.2 + 1)) 0 = n
    at hb
  by_cases hi : i < n
  · by_cases hj : j < n
    · simp [List.get?_eq_getElem?, List.getElem?_map, List.getElem?_range, hi, hj]
    · have h0 : (labelPairs c actual predicted).count (i, j) = 0 := by
        apply List.count_eq_zero_of_not_mem
        intro hm
        exact hj (hb _ hm).2
      have hnone : (List.range n)[j]? = none :=
        List.getElem?_eq_none (by rw [List.length_range]; omega)
      simp [List.get?_eq_getElem?, List.getElem?_map, List.getElem?_range, hi, h0, hnone]
  · have h0 : (labelPairs c actual predicted).count (i, j) = 0 := by
      apply List.count_eq_zero_of_not_mem
      intro hm
      exact hi (hb _ hm).1
    have hnone : (List.range n)[i]? = none :=
      List.getElem?_eq_none (by rw [List.length_range]; omega)
    simp [List.get?_eq_getElem?, List.getElem?_map, h0, hnone]

theorem errorMatrix_accuracy (c : FeatureCollection) (actual predicted : String) :
    (c.errorMatrix actual predicted).accuracy =
      if (labelPairs c actual predicted).length = 0 then none
      else some ((((labelPairs c actual predicted).countP (fun p => decide (p.1 = p.2)) : Nat) : ℚ) /
        (((labelPairs c actual predicted).length : Nat) : ℚ)) := by
  have hb := (foldl_max_bound (labelPairs c actual predicted) 0).2
  have hentry : ∀ i, (c.errorMatrix actual predicted).entry i i =
      (labelPairs c actual predicted).count (i, i) := fun i => errorMatrix_entry c actual predicted i i
  unfold ConfusionMatrix.accuracy
  simp only [hentry]
  unfold FeatureCollection.errorMatrix
  simp only [List.map_map, List.length_map, List.length_range]
  generalize (labelPairs c actual predicted).foldl (fun m ab => max m (max ab.1 ab.2 + 1)) 0 = n
    at hb
  have ht := total_eq_length n (labelPairs c actual predicted) hb
  have hd := trace_eq_countP n (labelPairs c actual predicted) hb
  have hcomp : (List.sum ∘ fun i => List.map (fun j => List.count (i, j)
      (labelPairs c actual predicted)) (List.range n)) =
      fun i => ((List.range n).map (fun j => (labelPairs c actual predicted).count (i, j))).sum := rfl
  rw [hcomp, ht, hd]

theorem validation_rows (P : Platform) (af : Image) (smp : List Sample) (cls : Classifier)
    (hb : af.bandNames = ["B2", "B3", "B4", "B8", "B11", "B12", "NDVI", "NDWI", "NDBI"])
    (hin : cls.inputProperties = af.bandNames) (r : Feature)
    (hr : r ∈ FeatureCollection.classify (FeatureCollection.filter
      (FeatureCollection.randomColumn P (af.sampleRegions P (samples smp) ["class"] 20 4) "random")
      (Filter.gte "random" 0.7)) cls) :
    ∃ r0 ∈ FeatureCollection.filter
      (FeatureCollection.randomColumn P (af.sampleRegions P (samples smp) ["class"] 20 4) "random")
      (Filter.gte "random" 0.7),
      r.index = r0.index ∧ r.properties.get "class" = r0.properties.get "class" ∧
      ∃ a b : Nat, r.properties.get "class" = some (a : ℚ) ∧
        r.properties.get "classification" = some (b : ℚ) := by
  unfold FeatureCollection.classify at hr
  obtain ⟨r0, h0, rfl⟩ := List.mem_map.mp hr
  refine ⟨r0, h0, ?_⟩
  have hw : r0 ∈ FeatureCollection.randomColumn P
      (af.sampleRegions P (samples smp) ["class"] 20 4) "random" :=
    (List.mem_filter.mp h0).1
  obtain ⟨r1, h1, _, hprops, _⟩ := randomColumn_row P _ r0 hw
  obtain ⟨s, _, p, _, hclass, hall⟩ := sampleRegions_row P af smp r1 h1
  have hne : ∀ b ∈ af.bandNames, b ≠ "class" ∧ b ≠ "random" := by
    rw [hb]; decide
  have hclass0 : r0.properties.get "class" = some (s.classLabel : ℚ) := by
    rw [hprops, get_set, if_neg (by decide)]
    exact hclass
  have hsome : ∀ b ∈ cls.inputProperties, (r0.properties.get b).isSome = true := by
    intro b hbm
    rw [hin] at hbm
    rw [hprops, get_set, if_neg (fun h => (hne b hbm).2 h.symm), (hall b hbm (hne b hbm).1).1]
    exact (hall b hbm (hne b hbm).1).2
  obtain ⟨vec, hvec⟩ := collect_of_isSome _ _ hsome
  simp only [hvec]
  refine ⟨trivial, ?_, s.classLabel, cls.decide vec, ?_, ?_⟩
  · show (r0.properties.set "classification" _).get "class" = _
    rw [get_set, if_neg (by decide)]
  · show (r0.properties.set "classification" _).get "class" = _
    rw [get_set, if_neg (by decide)]
    exact hclass0
  · show (r0.properties.set "classification" _).get "classification" = _
    rw [get_set, if_pos rfl]

/-- C5: the evaluation statistics come from the held-out validation rows. The
table `validation` is `validationSet` classified row by row; every row carries
its ground-truth `class` and its predicted `classification`; each entry of
`confusionMatrix` counts the rows of `validation` with that pair of actual and
predicted class; and the printed overall accuracy is the number of rows whose
`classification` equals their `class` divided by the number of rows (undefined
for no rows). The evaluation fails only when `sentinel2` is empty. -/
theorem evaluation_on_validation_rows (P : Platform) (smp : List Sample)
    (s2sr : List S2Product) :
    match validation P smp s2sr with
    | .ok v => ∃ vs cls m, validationSet P smp s2sr = .ok vs ∧
        classifier P smp s2sr = .ok cls ∧ v = FeatureCollection.classify vs cls ∧
        v.length = vs.length ∧
        confusionMatrix P smp s2sr = .ok m ∧ m = v.errorMatrix "class" "classification" ∧
        (∀ r ∈ v, ∃ r0 ∈ vs, r.index = r0.index ∧
          r.properties.get "class" = r0.properties.get "class" ∧
          ∃ a b : Nat, r.properties.get "class" = some (a : ℚ) ∧
            r.properties.get "classification" = some (b : ℚ)) ∧
        (∀ i j : Nat, m.entry i j =
          v.countP (fun r => decide (r.properties.get "class" = some (i : ℚ) ∧
            r.properties.get "classification" = some (j : ℚ)))) ∧
        overallAccuracy P smp s2sr = .ok
          (if v.length = 0 then none
           else some (((v.countP (fun r => decide
              (r.properties.get "classification" = r.properties.get "class")) : Nat) : ℚ) /
            ((v.length : Nat) : ℚ)))
    | .error _ => sentinel2 P s2sr = .ok [] := by
  rcases allFeatures_cases P s2sr with ⟨af, haf, hb, _⟩ | ⟨e, he, hnil⟩
  · obtain ⟨t, w, ts, vs, cls, v, m, ht, hw, hts, hvs, hcls, hv, hm, _, _, _, e5, e6, e7, e8,
      e9, _⟩ := pipeline_ok P smp s2sr af haf
    rw [e7]
    have hin : cls.inputProperties = af.bandNames := by rw [hcls]; rfl
    have hrows : ∀ r ∈ v, ∃ r0 ∈ vs, r.index = r0.index ∧
        r.properties.get "class" = r0.properties.get "class" ∧
        ∃ a b : Nat, r.properties.get "class" = some (a : ℚ) ∧
          r.properties.get "classification" = some (b : ℚ) := by
      intro r hr
      rw [hv, hvs, hw, ht] at hr
      rw [hvs, hw, ht]
      exact validation_rows P af smp cls hb hin r hr
    have hH : ∀ r ∈ v, ∃ a b : Nat, r.properties.get "class" = some (a : ℚ) ∧
        r.properties.get "classification" = some (b : ℚ) := by
      intro r hr
      obtain ⟨_, _, _, _, h⟩ := hrows r hr
      exact h
    obtain ⟨hl, hc, hd⟩ := labelPairs_spec v "class" "classification" hH
    refine ⟨vs, cls, m, e5, e6, hv, ?_, e8, hm, hrows, ?_, ?_⟩
    · rw [hv]; unfold FeatureCollection.classify; simp
    · intro i j
      rw [hm, errorMatrix_entry, hc]
    · rw [e9, hm, errorMatrix_accuracy, hl, hd]
  · rw [(pipeline_error P smp s2sr e he).2.2.2.2.2.1]
    exact hnil

/-! ## The example run, evaluated -/

set_option maxRecDepth 100000
theorem example_sentinel2 :
    ∃ coll, sentinel2 examplePlatform exampleProducts = .ok coll ∧ coll.length = 4 ∧
      coll.filterMap (fun img => img.value "B2" ⟨100, 30⟩) = [100, 500, 900] :=
  ⟨_, rfl, by with_unfolding_all decide, by with_unfolding_all decide⟩

theorem example_composite :
    ∃ c, composite examplePlatform exampleProducts = .ok c ∧
      c.value "B8" ⟨100, 30⟩ = some 503 ∧ c.value "B4" ⟨100, 30⟩ = some 502 :=
  ⟨_, rfl, by with_unfolding_all decide, by with_unfolding_all decide⟩

theorem example_composite_bands :
    ∃ c, composite examplePlatform exampleProducts = .ok c ∧
      c.value "B8" ⟨100, 30⟩ = some 503 ∧ c.value "B4" ⟨100, 30⟩ = some 502 ∧
      c.value "B3" ⟨100, 30⟩ = some 501 ∧ c.value "B11" ⟨100, 30⟩ = some 504 ∧
      c.value "B8" ⟨0, 0⟩ = none :=
  ⟨_, rfl, by with_unfolding_all decide, by with_unfolding_all decide,
    by with_unfolding_all decide, by with_unfolding_all decide, by with_unfolding_all decide⟩

theorem example_indices :
    ∃ i, ndvi examplePlatform exampleProducts = .ok i ∧
      i.value "NDVI" ⟨100, 30⟩ = some (1 / 1005) :=
  ⟨_, rfl, by with_unfolding_all decide⟩

theorem example_allFeatures :
    ∃ af, allFeatures examplePlatform exampleProducts = .ok af ∧
      af.value "NDBI" ⟨100, 30⟩ = some (1 / 1007) ∧ af.value "B12" ⟨100, 30⟩ = some 505 :=
  ⟨_, rfl, by with_unfolding_all decide, by with_unfolding_all decide⟩

theorem example_split :
    ∃ w ts vs, withRandom examplePlatform exampleSamples exampleProducts = .ok w ∧
      trainingSet examplePlatform exampleSamples exampleProducts = .ok ts ∧
      validationSet examplePlatform exampleSamples exampleProducts = .ok vs ∧
      w.map (fun r => r.index) = ["a_0", "bb_0", "dddd_0"] ∧
      ts.map (fun r => r.index) = ["a_0"] ∧ vs.map (fun r => r.index) = ["bb_0", "dddd_0"] :=
  ⟨_, _, _, rfl, rfl, rfl, by with_unfolding_all decide, by with_unfolding_all decide, by with_unfolding_all decide⟩

theorem example_evaluation :
    ∃ v m a, validation examplePlatform exampleSamples exampleProducts = .ok v ∧
      confusionMatrix examplePlatform exampleSamples exampleProducts = .ok m ∧
      overallAccuracy examplePlatform exampleSamples exampleProducts = .ok a ∧
      v.length = 2 ∧ m.array = [[0, 1], [0, 1]] ∧ a = some (1 / 2) :=
  ⟨_, _, _, rfl, rfl, rfl, by with_unfolding_all decide, by with_unfolding_all decide,
    by with_unfolding_all decide⟩

theorem example_classified :
    ∃ img, classified examplePlatform exampleSamples exampleProducts = .ok img ∧
      img.value "classification" ⟨100, 30⟩ = some 1 ∧
      img.value "classification" ⟨0, 0⟩ = none :=
  ⟨_, rfl, by with_unfolding_all decide, by with_unfolding_all decide⟩

theorem example_empty :
    sentinel2 examplePlatform [] = .ok [] ∧
      ∃ e, allFeatures examplePlatform [] = .error e ∧
        classified examplePlatform exampleSamples [] = .error e :=
  ⟨rfl, _, rfl, rfl⟩

/-- The theorem of C1 at the example: the composite of B2 at a pixel of the
region is 500, the median of 100, 500 and 900, and a pixel outside is masked. -/
theorem composite_is_clipped_median_witness :
    ∃ c, composite examplePlatform exampleProducts = .ok c ∧
      c.value "B2" ⟨100, 30⟩ = some 500 ∧ c.value "B2" ⟨0, 0⟩ = none := by
  obtain ⟨coll, c, h1, h2, h3, h4⟩ := composite_is_clipped_median examplePlatform exampleProducts
  obtain ⟨coll1, h5, _, hl⟩ := example_sentinel2
  rw [h1] at h5
  cases h5
  refine ⟨c, h2, ?_, h4 _ _ (by with_unfolding_all decide)⟩
  rw [(h3 "B2" ⟨100, 30⟩ (by decide) (by with_unfolding_all decide)).1, hl]
  with_unfolding_all decide

/-- The theorem of C2 at the example: four of the six products remain, each
below 20 in scene cloud percentage. -/
theorem composite_inputs_cloud_filtered_witness :
    ∃ coll, sentinel2 examplePlatform exampleProducts = .ok coll ∧ coll.length = 4 ∧
      ∀ img ∈ coll, ∃ s ∈ exampleProducts, s.CLOUDY_PIXEL_PERCENTAGE < 20 ∧
        ∀ b p v, img.value b p = some v → ∃ k, s.MSK_CLDPRB p = some k ∧ k < 20 := by
  obtain ⟨coll, h1, _, h3⟩ := composite_inputs_cloud_filtered examplePlatform exampleProducts
  obtain ⟨coll1, h5, hlen, _⟩ := example_sentinel2
  rw [h1] at h5
  cases h5
  refine ⟨coll, h1, hlen, ?_⟩
  intro img himg
  obtain ⟨s, hs, _, _, _, hc, hv⟩ := h3 img himg
  exact ⟨s, hs, hc, fun b p v h => (hv b p v h).2⟩

/-- The theorem of C3 at the example: where the composite has B8 = 503,
B4 = 502, B3 = 501 and B11 = 504, NDVI is 1/1005, NDWI is -1/502 and NDBI is
1/1007, each in a single band. -/
theorem spectral_indices_are_normalized_ratios_witness :
    ∃ i1 i2 i3, ndvi examplePlatform exampleProducts = .ok i1 ∧
      ndwi examplePlatform exampleProducts = .ok i2 ∧
      ndbi examplePlatform exampleProducts = .ok i3 ∧
      i1.bandNames = ["NDVI"] ∧ i2.bandNames = ["NDWI"] ∧ i3.bandNames = ["NDBI"] ∧
      i1.value "NDVI" ⟨100, 30⟩ = some (1 / 1005) ∧
      i2.value "NDWI" ⟨100, 30⟩ = some (-1 / 502) ∧
      i3.value "NDBI" ⟨100, 30⟩ = some (1 / 1007) ∧
      i1.value "B8" ⟨100, 30⟩ = none ∧ i1.value "NDVI" ⟨0, 0⟩ = none := by
  obtain ⟨c, hc, h1, h2, h3⟩ :=
    spectral_indices_are_normalized_ratios examplePlatform exampleProducts
  obtain ⟨c1, hc1, h8, h4, hb3, h11, hout⟩ := example_composite_bands
  rw [hc] at hc1
  cases hc1
  obtain ⟨i1, e1⟩ : ∃ i, ndvi examplePlatform exampleProducts = .ok i := ⟨_, rfl⟩
  obtain ⟨i2, e2⟩ : ∃ i, ndwi examplePlatform exampleProducts = .ok i := ⟨_, rfl⟩
  obtain ⟨i3, e3⟩ : ∃ i, ndbi examplePlatform exampleProducts = .ok i := ⟨_, rfl⟩
  rw [e1] at h1
  rw [e2] at h2
  rw [e3] at h3
  refine ⟨i1, i2, i3, e1, e2, e3, h1.1, h2.1, h3.1, ?_, ?_, ?_, h1.2.2 "B8" _ (by decide), ?_⟩
  · exact (h1.2.1 _ _).mpr ⟨503, 502, h8, h4, by norm_num, by norm_num, by norm_num, by norm_num⟩
  · exact (h2.2.1 _ _).mpr ⟨501, 503, hb3, h8, by norm_num, by norm_num, by norm_num, by norm_num⟩
  · exact (h3.2.1 _ _).mpr ⟨504, 503, h11, h8, by norm_num, by norm_num, by norm_num, by norm_num⟩
  · cases hv : i1.value "NDVI" ⟨0, 0⟩ with
    | none => rfl
    | some v =>
      obtain ⟨x, _, hx, _⟩ := (h1.2.1 _ _).mp hv
      rw [hout] at hx
      cases hx

/-- The theorem of C9 at the example: NDVI has a value between -1 and 1 where
B8 is 503 and B4 is 502, and it is not 0. -/
theorem spectral_indices_bounded_witness :
    ∃ i v, ndvi examplePlatform exampleProducts = .ok i ∧
      i.value "NDVI" ⟨100, 30⟩ = some v ∧ -1 ≤ v ∧ v ≤ 1 ∧ v ≠ 0 := by
  obtain ⟨c, hc, h1, _, _⟩ := spectral_indices_bounded examplePlatform exampleProducts
  obtain ⟨i, hi, _⟩ := example_indices
  obtain ⟨c1, hc1, hx, hy⟩ := example_composite
  rw [hc] at hc1
  cases hc1
  rw [hi] at h1
  obtain ⟨v, hv, hlo, hhi, hz⟩ := h1 ⟨100, 30⟩ 503 502 hx hy (by norm_num) (by norm_num)
    (by norm_num)
  exact ⟨i, v, hi, hv, hlo, hhi, fun h => by have := hz.mp h; norm_num at this⟩

/-- The theorem of C4 at the example: one training row, two validation rows,
no row in both. -/
theorem split_is_held_out_witness :
    ∃ ts vs, trainingSet examplePlatform exampleSamples exampleProducts = .ok ts ∧
      validationSet examplePlatform exampleSamples exampleProducts = .ok vs ∧
      ts.map (fun r => r.index) = ["a_0"] ∧ vs.map (fun r => r.index) = ["bb_0", "dddd_0"] ∧
      ts.length + vs.length = 3 ∧ ∀ r ∈ vs, r ∉ ts := by
  have h := split_is_held_out examplePlatform exampleSamples exampleProducts
  obtain ⟨w, ts, vs, hw, hts, hvs, hwi, hti, hvi⟩ := example_split
  rw [hw] at h
  obtain ⟨ts1, vs1, af, cls, e1, e2, _, _, _, _, hlen, _, _, hdis⟩ := h
  rw [hts] at e1
  rw [hvs] at e2
  cases e1
  cases e2
  have hwl : w.length = 3 := by
    have := congrArg List.length hwi
    simpa using this
  exact ⟨ts, vs, hts, hvs, hti, hvi, by rw [hlen, hwl], hdis⟩

/-- The theorem of C5 at the example: of the two validation rows one has
class 1 and classification 1, and the accuracy is 1/2. -/
theorem evaluation_on_validation_rows_witness :
    ∃ v a, validation examplePlatform exampleSamples exampleProducts = .ok v ∧
      overallAccuracy examplePlatform exampleSamples exampleProducts = .ok a ∧
      v.length = 2 ∧ a = some (1 / 2) ∧
      v.countP (fun r => decide (r.properties.get "class" = some ((1 : Nat) : ℚ) ∧
        r.properties.get "classification" = some ((1 : Nat) : ℚ))) = 1 := by
  have h := evaluation_on_validation_rows examplePlatform exampleSamples exampleProducts
  obtain ⟨v, m, a, hv, hm, ha, hlen, harr, hacc⟩ := example_evaluation
  rw [hv] at h
  obtain ⟨vs, cls, m1, _, _, _, _, e5, _, _, hentry, _⟩ := h
  rw [hm] at e5
  cases e5
  refine ⟨v, a, hv, ha, hlen, hacc, ?_⟩
  rw [← hentry 1 1]
  simp [ConfusionMatrix.entry, harr]

/-- The theorem of C6 at the example: nine bands, and a classified map with a
value inside the region. -/
theorem features_shared_by_training_and_prediction_witness :
    ∃ af cls img, allFeatures examplePlatform exampleProducts = .ok af ∧
      af.bandNames = ["B2", "B3", "B4", "B8", "B11", "B12", "NDVI", "NDWI", "NDBI"] ∧
      classifier examplePlatform exampleSamples exampleProducts = .ok cls ∧
      cls.inputProperties = af.bandNames ∧
      classified examplePlatform exampleSamples exampleProducts = .ok img ∧
      af.classify cls = .ok img ∧ img.value "classification" ⟨100, 30⟩ = some 1 := by
  have h := features_shared_by_training_and_prediction examplePlatform exampleSamples
    exampleProducts
  obtain ⟨af, haf, _⟩ := example_allFeatures
  obtain ⟨img, himg, hval, _⟩ := example_classified
  rw [haf] at h
  obtain ⟨hb, t, cls, img1, _, _, hcls, hin, hcl, hap, _⟩ := h
  rw [himg] at hcl
  cases hcl
  exact ⟨af, cls, img, haf, hb, hcls, by rw [hin, hb], himg, hap, hval⟩

/-- The theorem of C8 at the example: a classifier whose inputs hold neither
`class` nor `random`. -/
theorem classifier_inputs_exclude_label_and_split_witness :
    ∃ af cls, allFeatures examplePlatform exampleProducts = .ok af ∧
      classifier examplePlatform exampleSamples exampleProducts = .ok cls ∧
      cls.inputProperties = af.bandNames ∧
      "class" ∉ cls.inputProperties ∧ "random" ∉ cls.inputProperties := by
  have h := classifier_inputs_exclude_label_and_split examplePlatform exampleSamples
    exampleProducts
  obtain ⟨af, haf, _⟩ := example_allFeatures
  rw [haf] at h
  obtain ⟨cls, hcls, hin, h1, h2, _⟩ := h
  exact ⟨af, cls, haf, hcls, hin, h1, h2⟩
